import Mathlib

/-!
# acpid input layer (`input_layer.c`): embedding and verification

C integers are embedded as `Nat` / `Int` with explicit reduction modulo `2^32`
where the C arithmetic can wrap.  `unsigned` and `int` are 32 bits wide.
The libc routines `bsearch` and `qsort` are embedded as functions on lists:
`bsearch` is the usual halving loop, `qsort` a stable insertion sort.
-/

namespace InputLayer

/-! ## Constants of `linux/input-event-codes.h` -/

def EV_SYN : Nat := 0x00
def EV_KEY : Nat := 0x01
def EV_REL : Nat := 0x02
def EV_MSC : Nat := 0x04
def EV_SW : Nat := 0x05
def EV_MAX : Nat := 0x1f
def MSC_SCAN : Nat := 0x04
def KEY_MAX : Nat := 0x2ff

def KEY_KPENTER : Nat := 96
def KEY_UP : Nat := 103
def KEY_LEFT : Nat := 105
def KEY_RIGHT : Nat := 106
def KEY_DOWN : Nat := 108
def KEY_MUTE : Nat := 113
def KEY_VOLUMEDOWN : Nat := 114
def KEY_VOLUMEUP : Nat := 115
def KEY_POWER : Nat := 116
def KEY_COPY : Nat := 133
def KEY_MENU : Nat := 139
def KEY_SLEEP : Nat := 142
def KEY_PROG1 : Nat := 148
def KEY_COFFEE : Nat := 152
/-- In the header: `#define KEY_SCREENLOCK KEY_COFFEE`. -/
def KEY_SCREENLOCK : Nat := KEY_COFFEE
def KEY_BACK : Nat := 158
def KEY_EJECTCD : Nat := 161
def KEY_EJECTCLOSECD : Nat := 162
def KEY_NEXTSONG : Nat := 163
def KEY_PLAYPAUSE : Nat := 164
def KEY_PREVIOUSSONG : Nat := 165
def KEY_STOPCD : Nat := 166
def KEY_REWIND : Nat := 168
def KEY_HOMEPAGE : Nat := 172
def KEY_F20 : Nat := 190
def KEY_F24 : Nat := 194
def KEY_PLAYCD : Nat := 200
def KEY_PAUSECD : Nat := 201
def KEY_SUSPEND : Nat := 205
def KEY_FASTFORWARD : Nat := 208
def KEY_BRIGHTNESSDOWN : Nat := 224
def KEY_BRIGHTNESSUP : Nat := 225
def KEY_SWITCHVIDEOMODE : Nat := 227
def KEY_KBDILLUMTOGGLE : Nat := 228
def KEY_KBDILLUMDOWN : Nat := 229
def KEY_KBDILLUMUP : Nat := 230
def KEY_BATTERY : Nat := 236
def KEY_WLAN : Nat := 238
def KEY_VIDEO_NEXT : Nat := 241
def KEY_VIDEO_PREV : Nat := 242
def KEY_BRIGHTNESS_CYCLE : Nat := 243
def KEY_BRIGHTNESS_AUTO : Nat := 244
/-- In the header: `#define KEY_BRIGHTNESS_ZERO KEY_BRIGHTNESS_AUTO`. -/
def KEY_BRIGHTNESS_ZERO : Nat := KEY_BRIGHTNESS_AUTO
def KEY_DISPLAY_OFF : Nat := 245
def KEY_MICMUTE : Nat := 248
def KEY_VENDOR : Nat := 0x168
def KEY_FULL_SCREEN : Nat := 0x174
/-- In the header: `#define KEY_ZOOM KEY_FULL_SCREEN`. -/
def KEY_ZOOM : Nat := KEY_FULL_SCREEN
def KEY_RESTART : Nat := 0x198
def KEY_FN_F1 : Nat := 0x1d2
def KEY_FN_F2 : Nat := 0x1d3
def KEY_FN_F6 : Nat := 0x1d7
def KEY_FN_F9 : Nat := 0x1da
def KEY_FN_F10 : Nat := 0x1db
def KEY_FN_F11 : Nat := 0x1dc

def SW_LID : Nat := 0x00
def SW_TABLET_MODE : Nat := 0x01
def SW_HEADPHONE_INSERT : Nat := 0x02
def SW_MICROPHONE_INSERT : Nat := 0x04
def SW_LINEOUT_INSERT : Nat := 0x06
def SW_VIDEOOUT_INSERT : Nat := 0x08
def SW_LINEIN_INSERT : Nat := 0x0d

/-! ## Data model -/

/-- A row of the event table: `struct evtab_entry`
(`unsigned type; unsigned code; int value; const char *str`). -/
structure evtab_entry where
  type : Nat
  code : Nat
  value : Int
  str : String
  deriving DecidableEq, Repr

/-- The three fields of `struct input_event` the code reads
(`__u16 type; __u16 code; __s32 value`). -/
structure input_event where
  type : Nat
  code : Nat
  value : Int
  deriving DecidableEq, Repr

/-- The event table as authored, with every `#ifdef`-guarded row included
and the `#if 0` block left out. -/
def evtab : List evtab_entry := [
  ⟨EV_KEY, KEY_POWER, 1, "button/power PBTN 00000080 00000000"⟩,
  ⟨EV_KEY, KEY_SUSPEND, 1, "button/suspend SUSP 00000080 00000000"⟩,
  ⟨EV_KEY, KEY_SLEEP, 1, "button/sleep SBTN 00000080 00000000"⟩,
  ⟨EV_SW, SW_LID, 1, "button/lid LID close"⟩,
  ⟨EV_SW, SW_LID, 0, "button/lid LID open"⟩,
  ⟨EV_SW, SW_TABLET_MODE, 0, "video/tabletmode TBLT 0000008A 00000000"⟩,
  ⟨EV_SW, SW_TABLET_MODE, 1, "video/tabletmode TBLT 0000008A 00000001"⟩,
  ⟨EV_KEY, KEY_ZOOM, 1, "button/zoom ZOOM 00000080 00000000"⟩,
  ⟨EV_KEY, KEY_BRIGHTNESSDOWN, 1, "video/brightnessdown BRTDN 00000087 00000000"⟩,
  ⟨EV_KEY, KEY_BRIGHTNESSUP, 1, "video/brightnessup BRTUP 00000086 00000000"⟩,
  ⟨EV_KEY, KEY_VIDEO_NEXT, 1, "video/next NEXT 00000083 00000000"⟩,
  ⟨EV_KEY, KEY_VIDEO_PREV, 1, "video/prev PREV 00000084 00000000"⟩,
  ⟨EV_KEY, KEY_BRIGHTNESS_CYCLE, 1, "video/brightnesscycle BCYC 00000085 00000000"⟩,
  ⟨EV_KEY, KEY_BRIGHTNESS_ZERO, 1, "video/brightnesszero BZRO 00000088 00000000"⟩,
  ⟨EV_KEY, KEY_DISPLAY_OFF, 1, "video/displayoff DOFF 00000089 00000000"⟩,
  ⟨EV_KEY, KEY_SWITCHVIDEOMODE, 1, "video/switchmode VMOD 00000080 00000000"⟩,
  ⟨EV_KEY, KEY_VOLUMEDOWN, 1, "button/volumedown VOLDN 00000080 00000000"⟩,
  ⟨EV_KEY, KEY_VOLUMEDOWN, 2, "button/volumedown VOLDN 00000080 00000000"⟩,
  ⟨EV_KEY, KEY_VOLUMEUP, 1, "button/volumeup VOLUP 00000080 00000000"⟩,
  ⟨EV_KEY, KEY_VOLUMEUP, 2, "button/volumeup VOLUP 00000080 00000000"⟩,
  ⟨EV_KEY, KEY_MUTE, 1, "button/mute MUTE 00000080 00000000"⟩,
  ⟨EV_KEY, KEY_MICMUTE, 1, "button/micmute MICMUTE 00000080 00000000"⟩,
  ⟨EV_KEY, KEY_NEXTSONG, 1, "cd/next CDNEXT 00000080 00000000"⟩,
  ⟨EV_KEY, KEY_PREVIOUSSONG, 1, "cd/prev CDPREV 00000080 00000000"⟩,
  ⟨EV_KEY, KEY_PLAYPAUSE, 1, "cd/play CDPLAY 00000080 00000000"⟩,
  ⟨EV_KEY, KEY_PLAYCD, 1, "cd/play2 CDPLAY2 00000080 00000000"⟩,
  ⟨EV_KEY, KEY_PAUSECD, 1, "cd/pause CDPAUSE 00000080 00000000"⟩,
  ⟨EV_KEY, KEY_STOPCD, 1, "cd/stop CDSTOP 00000080 00000000"⟩,
  ⟨EV_KEY, KEY_EJECTCD, 1, "cd/eject CDEJECT 00000080 00000000"⟩,
  ⟨EV_KEY, KEY_EJECTCLOSECD, 1, "cd/ejectclose CDEJECTCLOSE 00000080 00000000"⟩,
  ⟨EV_KEY, KEY_FASTFORWARD, 1, "button/ff FF 00000080 00000000"⟩,
  ⟨EV_KEY, KEY_REWIND, 1, "button/rew REW 00000080 00000000"⟩,
  ⟨EV_SW, SW_HEADPHONE_INSERT, 0, "jack/headphone HEADPHONE unplug"⟩,
  ⟨EV_SW, SW_HEADPHONE_INSERT, 1, "jack/headphone HEADPHONE plug"⟩,
  ⟨EV_SW, SW_MICROPHONE_INSERT, 0, "jack/microphone MICROPHONE unplug"⟩,
  ⟨EV_SW, SW_MICROPHONE_INSERT, 1, "jack/microphone MICROPHONE plug"⟩,
  ⟨EV_SW, SW_LINEOUT_INSERT, 0, "jack/lineout LINEOUT unplug"⟩,
  ⟨EV_SW, SW_LINEOUT_INSERT, 1, "jack/lineout LINEOUT plug"⟩,
  ⟨EV_SW, SW_VIDEOOUT_INSERT, 0, "jack/videoout VIDEOOUT unplug"⟩,
  ⟨EV_SW, SW_VIDEOOUT_INSERT, 1, "jack/videoout VIDEOOUT plug"⟩,
  ⟨EV_SW, SW_LINEIN_INSERT, 0, "jack/linein LINEIN unplug"⟩,
  ⟨EV_SW, SW_LINEIN_INSERT, 1, "jack/linein LINEIN plug"⟩,
  ⟨EV_KEY, KEY_PROG1, 1, "button/prog1 PROG1 00000080 00000000"⟩,
  ⟨EV_KEY, KEY_VENDOR, 1, "button/vendor VNDR 00000080 00000000"⟩,
  ⟨EV_KEY, KEY_BATTERY, 1, "button/battery BAT 00000080 00000000"⟩,
  ⟨EV_KEY, KEY_SCREENLOCK, 1, "button/screenlock SCRNLCK 00000080 00000000"⟩,
  ⟨EV_KEY, KEY_COFFEE, 1, "button/coffee CFEE 00000080 00000000"⟩,
  ⟨EV_KEY, KEY_WLAN, 1, "button/wlan WLAN 00000080 00000000"⟩,
  ⟨EV_KEY, KEY_FN_F1, 1, "button/fnf1 FNF1 00000080 00000000"⟩,
  ⟨EV_KEY, KEY_FN_F2, 1, "button/fnf2 FNF2 00000080 00000000"⟩,
  ⟨EV_KEY, KEY_FN_F6, 1, "button/fnf6 FNF6 00000080 00000000"⟩,
  ⟨EV_KEY, KEY_FN_F9, 1, "button/fnf9 FNF9 00000080 00000000"⟩,
  ⟨EV_KEY, KEY_FN_F10, 1, "button/fnf10 FF10 00000080 00000000"⟩,
  ⟨EV_KEY, KEY_FN_F11, 1, "button/fnf11 FF11 00000080 00000000"⟩,
  ⟨EV_KEY, KEY_F20, 1, "button/f20 F20 00000080 00000000"⟩,
  ⟨EV_KEY, KEY_F24, 1, "button/f24 F24 00000080 00000000"⟩,
  ⟨EV_KEY, KEY_KBDILLUMTOGGLE, 1, "button/kbdillumtoggle KBILLUM 00000080 00000000"⟩,
  ⟨EV_KEY, KEY_KBDILLUMUP, 1, "button/kbdillumup KBILLUMUP 00000080 00000000"⟩,
  ⟨EV_KEY, KEY_KBDILLUMDOWN, 1, "button/kbdillumdown KBILLUMDOWN 00000080 00000000"⟩,
  ⟨EV_KEY, KEY_COPY, 1, "button/copy COPY 00000080 00000000"⟩,
  ⟨EV_KEY, KEY_RESTART, 1, "button/restart RSTR 00000080 00000000"⟩,
  ⟨EV_KEY, KEY_KPENTER, 1, "button/kpenter KPENTER 00000080 00000000"⟩,
  ⟨EV_KEY, KEY_UP, 1, "button/up UP 00000080 00000000"⟩,
  ⟨EV_KEY, KEY_LEFT, 1, "button/left LEFT 00000080 00000000"⟩,
  ⟨EV_KEY, KEY_RIGHT, 1, "button/right RIGHT 00000080 00000000"⟩,
  ⟨EV_KEY, KEY_DOWN, 1, "button/down DOWN 00000080 00000000"⟩,
  ⟨EV_KEY, KEY_MENU, 1, "button/menu MENU 00000080 00000000"⟩,
  ⟨EV_KEY, KEY_BACK, 1, "button/back BACK 00000080 00000000"⟩,
  ⟨EV_KEY, KEY_HOMEPAGE, 1, "button/homepage HOMEPAGE 00000080 00000000"⟩]

/-! ## Machine arithmetic -/

/-- Result of `a - b` on two `unsigned` operands: reduced modulo `2^32`. -/
def unsigned_sub (a b : Nat) : Nat := (((a : Int) - (b : Int)) % 2 ^ 32).toNat

/-- Conversion of an `unsigned` value to `int` (two's complement). -/
def to_int (n : Nat) : Int :=
  if n % 2 ^ 32 < 2 ^ 31 then ((n % 2 ^ 32 : Nat) : Int) else ((n % 2 ^ 32 : Nat) : Int) - 2 ^ 32

/-- Result of `a - b` on two `int` operands, wrapping modulo `2^32`. -/
def int_sub (a b : Int) : Int := (a - b + 2 ^ 31) % 2 ^ 32 - 2 ^ 31

/-- Conversion of an `int` value to `unsigned`. -/
def to_unsigned (z : Int) : Nat := (z % 2 ^ 32).toNat

/-! ## Comparators -/

/-- Compare all three key fields. -/
def event_compare_3 (levent revent : evtab_entry) : Int :=
  let diff := to_int (unsigned_sub levent.type revent.type)
  if diff ≠ 0 then diff
  else
    let diff := to_int (unsigned_sub levent.code revent.code)
    if diff ≠ 0 then diff
    else int_sub levent.value revent.value

/-- Just compare type and code.  For `need_event`. -/
def event_compare_2 (levent revent : evtab_entry) : Int :=
  let diff := to_int (unsigned_sub levent.type revent.type)
  if diff ≠ 0 then diff
  else to_int (unsigned_sub levent.code revent.code)

/-! ## libc: `bsearch` and `qsort` -/

/-- The loop of `bsearch`: `l` and `u` bound the part of `base` still to search. -/
def bsearch_loop {α β : Type} (compar : α → β → Int) (key : α) (base : List β)
    (l u : Nat) (hu : u ≤ base.length) : Option β :=
  if h : l < u then
    let idx := (l + u) / 2
    have hidx : idx < base.length := by omega
    let p := base[idx]
    let comparison := compar key p
    if comparison < 0 then
      bsearch_loop compar key base l idx (by omega)
    else if comparison > 0 then
      bsearch_loop compar key base (idx + 1) u hu
    else
      some p
  else
    none
termination_by u - l
decreasing_by all_goals simp_wf; all_goals omega

/-- Binary search of `base` for an element on which `compar key` is zero;
`none` is the NULL result. -/
def bsearch {α β : Type} (compar : α → β → Int) (key : α) (base : List β) : Option β :=
  bsearch_loop compar key base 0 base.length (Nat.le_refl _)

/-- Sort `base` so that `compar` is non-positive on consecutive elements. -/
def qsort {β : Type} (compar : β → β → Int) (base : List β) : List β :=
  List.insertionSort (fun a b => compar a b ≤ 0) base

/-- The event table after the `qsort` call of `open_input`. -/
def evtab_sorted : List evtab_entry := qsort event_compare_3 evtab

/-! ## Lookups -/

/-- Special support for the MUTE key: returns the string (`none` is NULL)
and the new value of the static `repeat_count` (a `size_t`, 64 bits). -/
def mute_string (event : input_event) (repeat_count : Nat) : Option String × Nat :=
  if event.type = EV_KEY ∧ event.code = KEY_MUTE then
    if event.value = 1 then
      (some "button/mute MUTE (key pressed)", 1)
    else if event.value = 2 then
      (none, (repeat_count + 1) % 2 ^ 64)
    else if event.value = 0 then
      if repeat_count % 2 = 0 then
        (some "button/mute MUTE (key released)", repeat_count)
      else
        (none, repeat_count)
    else
      (none, repeat_count)
  else
    (none, repeat_count)

/-- Given an input event, returns the string corresponding to that event in
the table `tab`; `none` is NULL. -/
def event_string (tab : List evtab_entry) (event : input_event) : Option String :=
  let search_event : evtab_entry := ⟨event.type, event.code, event.value, ""⟩
  match bsearch event_compare_3 search_event tab with
  | none => none
  | some found_event => some found_event.str

/-- Returns non-zero if the event type/code is one we need.  The source
leaves `search_event.value` unset; `event_compare_2` never reads it, and the
embedding puts 0 there. -/
def need_event (tab : List evtab_entry) (type code : Int) : Int :=
  let search_event : evtab_entry := ⟨to_unsigned type, to_unsigned code, 0, ""⟩
  match bsearch event_compare_2 search_event tab with
  | none => 0
  | some _ => 1

/-! ## Capability probe -/

/-- Number of bits of a `long`, `sizeof(long) * 8`. -/
def BITS_PER_LONG (sizeof_long : Nat) : Nat := sizeof_long * 8

/-- Longs needed for `x` bits. -/
def NBITS (sizeof_long x : Nat) : Nat := ((x - 1) / BITS_PER_LONG sizeof_long) + 1

def OFF (sizeof_long x : Nat) : Nat := x % BITS_PER_LONG sizeof_long

def LONG (sizeof_long x : Nat) : Nat := x / BITS_PER_LONG sizeof_long

/-- The macro `test_bit(bit, array)`; `none` when the word index is outside `array`. -/
def test_bit (sizeof_long bit : Nat) (array : List Nat) : Option Nat :=
  match array[LONG sizeof_long bit]? with
  | none => none
  | some w => some ((w >>> OFF sizeof_long bit) &&& 1)

/-- An input device as seen through `EVIOCGBIT`: for each event type the words
of the bitmap the kernel reports (type 0 gives the bitmap of supported types),
or `none` when the query fails. -/
structure Device where
  evbit : Nat → Option (List Nat)

/-- The kernel copies the words of its bitmap over the start of the user
buffer `row`, never past its end. -/
def copy_to_user : List Nat → List Nat → List Nat
  | w :: ws, _ :: rs => w :: copy_to_user ws rs
  | _, rs => rs

/-- The call `ioctl(fd, EVIOCGBIT(type, sizeof(bit[type])), bit[type])`: the new
content of the row.  A failed query leaves the row untouched. -/
def ioctl_EVIOCGBIT (dev : Device) (type : Nat) (row : List Nat) : List Nat :=
  match dev.evbit type with
  | none => row
  | some words => copy_to_user words row

/-- The inner loop of `has_event` over the event codes still to visit:
`some true` when it reaches `return 1`. -/
def has_event_codes (sizeof_long : Nat) (tab : List evtab_entry) (type : Nat)
    (row : List Nat) : List Nat → Option Bool
  | [] => some false
  | code :: codes =>
    match test_bit sizeof_long code row with
    | none => none
    | some b =>
      if b ≠ 0 ∧ need_event tab type code ≠ 0 then some true
      else has_event_codes sizeof_long tab type row codes

/-- The outer loop of `has_event` over the event types still to visit. -/
def has_event_types (sizeof_long : Nat) (tab : List evtab_entry) (dev : Device) :
    List Nat → List (List Nat) → Option Int
  | [], _ => some 0
  | type :: types, bit =>
    match bit[0]? with
    | none => none
    | some row0 =>
      match test_bit sizeof_long type row0 with
      | none => none
      | some b =>
        if b ≠ 0 then
          if type = EV_SYN then has_event_types sizeof_long tab dev types bit
          else
            match bit[type]? with
            | none => none
            | some row =>
              let row := ioctl_EVIOCGBIT dev type row
              let bit := bit.set type row
              match has_event_codes sizeof_long tab type row (List.range KEY_MAX) with
              | none => none
              | some true => some 1
              | some false => has_event_types sizeof_long tab dev types bit
        else has_event_types sizeof_long tab dev types bit

/-- Returns non-zero if the device supports one of the events of the table;
`none` would be an access outside the array `bit`. -/
def has_event (sizeof_long : Nat) (tab : List evtab_entry) (dev : Device) : Option Int :=
  let bit := List.replicate EV_MAX (List.replicate (NBITS sizeof_long KEY_MAX) 0)
  match bit[0]? with
  | none => none
  | some row0 =>
    let bit := bit.set 0 (ioctl_EVIOCGBIT dev 0 row0)
    has_event_types sizeof_long tab dev (List.range EV_MAX) bit

/-! ## Reader -/

/-- A `struct connection` as far as this file uses it. -/
structure connection where
  fd : Int
  pathname : Option String
  kybd : Int
  deriving DecidableEq, Repr

/-- Modelled from the spec: `find_connection` of connection_list.c, the
registry's `find_by_descriptor(fd) -> Option<ConnectionRef>`. -/
def find_connection (fd : Int) (list : List connection) : Option connection :=
  list.find? (fun c => c.fd = fd)

/-- Modelled from the spec: `delete_connection` of connection_list.c, the
registry's `deregister(fd)`. -/
def delete_connection (fd : Int) (list : List connection) : List connection :=
  list.filter (fun c => c.fd ≠ fd)

/-- The assignment `c->kybd = 1` on the connection `find_connection(fd)` returned. -/
def set_kybd (fd : Int) : List connection → List connection
  | [] => []
  | c :: cs => if c.fd = fd then { c with kybd := 1 } :: cs else c :: set_kybd fd cs

def ENODEV : Int := 19

def EINTR : Int := 4

/-- The size of `struct input_event` (a `struct timeval`, two `__u16`, one `__s32`). -/
def sizeof_event : Int := 24

/-- The size of the buffer `str2`. -/
def sizeof_str2 : Nat := 100

/-- Length of a string, at most `maxlen`; the strings hold one-byte characters. -/
def strnlen (s : String) (maxlen : Nat) : Nat := min s.length maxlen

/-- The result of one call of `read` (`nbytes`, `errno`, the record), with
the answer `locked()` gives when it is called after that read. -/
structure Reading where
  nbytes : Int
  errno : Int
  event : input_event
  locked : Bool

/-- The state `process_input` works on: the statics `nerrs` and
`repeat_count`, the connection list, and the strings passed to
`acpid_handle_event` so far, oldest first. -/
structure State where
  nerrs : Int
  repeat_count : Nat
  connections : List connection
  handled : List String

/-- How far a call of `process_input` gets: it returns, or it calls
`exit(EXIT_FAILURE)`, or it is still inside the retry loop around `read`
because every read result supplied was an interrupted one. -/
inductive Outcome where
  | returned (s : State)
  | exited (s : State)
  | interrupted (s : State)

/-- The macro `TEMP_FAILURE_RETRY` around `read`: the call is repeated while
it returns -1 with `errno == EINTR`.  `reads` holds the results of the
successive calls; the value is the first one that is not such an interrupted
read, and `none` when every result supplied was one. -/
def TEMP_FAILURE_RETRY : List Reading → Option Reading
  | [] => none
  | r :: reads =>
    if r.nbytes = -1 ∧ r.errno = EINTR then TEMP_FAILURE_RETRY reads else some r

/-- The conversion of the event into a string in `process_input`: the string
(`none` is NULL) and the new `repeat_count`. -/
def convert_event (tab : List evtab_entry) (tpmutefix : Int) (event : input_event)
    (repeat_count : Nat) : Option String × Nat :=
  if tpmutefix ≠ 0 then
    match mute_string event repeat_count with
    | (none, rc) => (event_string tab event, rc)
    | (some str, rc) => (some str, rc)
  else
    (event_string tab event, repeat_count)

/-- Called when an input layer event is received.  `reads` holds the results
of the successive calls of `read` on the descriptor, as far as they are
needed by `TEMP_FAILURE_RETRY`. -/
def process_input (tab : List evtab_entry) (ACPID_MAX_ERRS tpmutefix : Int) (fd : Int)
    (reads : List Reading) (s : State) : Outcome :=
  match TEMP_FAILURE_RETRY reads with
  | none => .interrupted s
  | some r =>
    if r.nbytes = 0 then
      .exited s
    else if r.nbytes < 0 then
      if r.errno = ENODEV then
        .returned { s with connections := delete_connection fd s.connections }
      else
        let s := { s with nerrs := s.nerrs + 1 }
        if s.nerrs ≥ ACPID_MAX_ERRS then .exited s else .returned s
    else if r.nbytes ≠ sizeof_event then
      .returned s
    else
      let event := r.event
      let connections :=
        if event.type = EV_MSC ∧ event.code = MSC_SCAN then set_kybd fd s.connections
        else s.connections
      let c := find_connection fd connections
      let (str, repeat_count) := convert_event tab tpmutefix event s.repeat_count
      let s := { s with connections := connections, repeat_count := repeat_count }
      match str with
      | none => .returned s
      | some str =>
        let kybd : Bool := match c with
          | none => false
          | some c => decide (c.kybd ≠ 0)
        let str :=
          if kybd = true ∧ strnlen str sizeof_str2 ≤ sizeof_str2 - 3 then str ++ " K" else str
        if r.locked then .returned s
        else .returned { s with handled := s.handled ++ [str] }

/-! ## Auxiliary notions used in the statements -/

/-- Sign of the lexicographic comparison of two rows by `(type, code, value)`:
`-1`, `0` or `1`. -/
def lex_sign (a b : evtab_entry) : Int :=
  if a.type < b.type then -1
  else if b.type < a.type then 1
  else if a.code < b.code then -1
  else if b.code < a.code then 1
  else if a.value < b.value then -1
  else if b.value < a.value then 1
  else 0

/-- The row `a` is at most the row `b` in lexicographic `(type, code, value)` order. -/
def lex_le (a b : evtab_entry) : Prop := lex_sign a b ≤ 0

instance (a b : evtab_entry) : Decidable (lex_le a b) := by
  unfold lex_le; infer_instance

/-- The row `e` carries the key fields of the record `ev`. -/
def same_triple (e : evtab_entry) (ev : input_event) : Prop :=
  e.type = ev.type ∧ e.code = ev.code ∧ e.value = ev.value

instance (e : evtab_entry) (ev : input_event) : Decidable (same_triple e ev) := by
  unfold same_triple; infer_instance

/-- The record carrying the key fields of a row. -/
def record_of (e : evtab_entry) : input_event := ⟨e.type, e.code, e.value⟩

/-- The fields of the row fit their C types (`unsigned`, `unsigned`, `int`). -/
def in_range (e : evtab_entry) : Prop :=
  e.type < 2 ^ 32 ∧ e.code < 2 ^ 32 ∧ -2 ^ 31 ≤ e.value ∧ e.value < 2 ^ 31

instance (e : evtab_entry) : Decidable (in_range e) := by
  unfold in_range; infer_instance

/-- The fields of the row are small enough for the subtractions of the
comparators not to wrap against another small row. -/
def small (e : evtab_entry) : Prop :=
  e.type < 2 ^ 31 ∧ e.code < 2 ^ 31 ∧ -2 ^ 30 ≤ e.value ∧ e.value < 2 ^ 30

instance (e : evtab_entry) : Decidable (small e) := by
  unfold small; infer_instance

/-- The search key `event_string` builds from a record. -/
def search_key (ev : input_event) : evtab_entry := ⟨ev.type, ev.code, ev.value, ""⟩

/-- Bit `n` of the bitmap the device reports for `type`; `false` when the
query fails or the bitmap has no word for the bit. -/
def dev_bit (sizeof_long : Nat) (dev : Device) (type n : Nat) : Bool :=
  match dev.evbit type with
  | none => false
  | some words =>
    match test_bit sizeof_long n words with
    | none => false
    | some b => decide (b ≠ 0)

/-- The mute-key record with the given value. -/
def mute_event (value : Int) : input_event := ⟨EV_KEY, KEY_MUTE, value⟩

/-- Successive calls of `mute_string` on a sequence of records: the strings
returned, in order, and the final `repeat_count`. -/
def mute_run : List input_event → Nat → List (Option String) × Nat
  | [], repeat_count => ([], repeat_count)
  | event :: events, repeat_count =>
    let r := mute_string event repeat_count
    let rest := mute_run events r.2
    (r.1 :: rest.1, rest.2)

/-! ## Device admission -/

/-- Modelled from the spec: `find_connection_name` of connection_list.c, the
registry's `find_by_path(path) -> Option<ConnectionRef>`. -/
def find_connection_name (pathname : String) (list : List connection) : Option connection :=
  list.find? (fun c => c.pathname = some pathname)

/-- Modelled from the spec: `add_connection` of connection_list.c, the
registry's `register(connection) -> Result<(), Error>`: the new list, or `none`
for the error (a negative return).  Whether the registry refuses the
connection is given from outside by `refuses`. -/
def add_connection (refuses : connection → Bool) (c : connection) (list : List connection) :
    Option (List connection) :=
  if refuses c then none else some (list ++ [c])

/-- What the admission code gets from outside: the result of `open` on a path
(the descriptor, negative when the open fails), the device behind a
descriptor, whether `malloc` returns NULL for the copy of a path, and the
registry's refusals. -/
structure Files where
  open_file : String → Int
  device : Int → Device
  malloc_null : String → Bool
  refuses : connection → Bool

/-- Open a single input layer file for input: the return value (0 for
success, -1 otherwise) and the new connection list.  When `malloc` returns
NULL the connection is added with a NULL pathname (`none`).  The result
`none` of the function would be an access outside the array of `has_event`. -/
def open_inputfile (sizeof_long : Nat) (tab : List evtab_entry) (env : Files)
    (filename : String) (list : List connection) : Option (Int × List connection) :=
  let fd := env.open_file filename
  if fd ≥ 0 then
    match has_event sizeof_long tab (env.device fd) with
    | none => none
    | some r =>
      if r = 0 then some (-1, list)
      else
        let pathname := if env.malloc_null filename then none else some filename
        let c : connection := { fd := fd, pathname := pathname, kybd := 0 }
        match add_connection env.refuses c list with
        | none => some (-1, list)
        | some list => some (0, list)
  else some (-1, list)

/-- The loop of `open_input` over the matched paths still to visit, with the
current value of `success` and the current connection list. -/
def open_input_files (sizeof_long : Nat) (tab : List evtab_entry) (env : Files) :
    List String → Int → List connection → Option (Int × List connection)
  | [], success, list => some (success, list)
  | filename :: rest, success, list =>
    match find_connection_name filename list with
    | some _ => open_input_files sizeof_long tab env rest 1 list
    | none =>
      match open_inputfile sizeof_long tab env filename list with
      | none => none
      | some (r, list) =>
        open_input_files sizeof_long tab env rest (if r = 0 then 1 else success) list

/-- What `open_input` leaves behind: the event table, the connection list, and
whether "cannot open input layer" was logged. -/
structure Admission where
  evtab : List evtab_entry
  connections : List connection
  reported : Bool

/-- Open each of the appropriate `/dev/input/event*` files for input;
`gl_pathv` is the list of paths `glob` matched.  The function always returns
to its caller. -/
def open_input (sizeof_long : Nat) (tab : List evtab_entry) (env : Files)
    (gl_pathv : List String) (list : List connection) : Option Admission :=
  let tab := qsort event_compare_3 tab
  match open_input_files sizeof_long tab env gl_pathv 0 list with
  | none => none
  | some (success, list) => some ⟨tab, list, decide (success = 0)⟩

/-! ## Auxiliary notions used in the statements: reader and admission -/

/-- The state an outcome carries. -/
def Outcome.state : Outcome → State
  | .returned s => s
  | .exited s => s
  | .interrupted s => s

/-- The call ended in `exit(EXIT_FAILURE)`. -/
def Outcome.fatal : Outcome → Bool
  | .returned _ => false
  | .exited _ => true
  | .interrupted _ => false

/-- A transient read error as `process_input` sees it: the value of the
retried read is negative and `errno` is not `ENODEV`. -/
def transient (r : Reading) : Prop := r.nbytes < 0 ∧ r.errno ≠ ENODEV

instance (r : Reading) : Decidable (transient r) := by
  unfold transient; infer_instance

/-- The read failed with `EINTR`: `TEMP_FAILURE_RETRY` repeats it. -/
def eintr (r : Reading) : Prop := r.nbytes = -1 ∧ r.errno = EINTR

instance (r : Reading) : Decidable (eintr r) := by
  unfold eintr; infer_instance

/-- The reads of one call of `process_input` end, after the retries, in a
transient read error. -/
def counted (reads : List Reading) : Bool :=
  match TEMP_FAILURE_RETRY reads with
  | none => false
  | some r => decide (transient r)

/-- Successive calls of `process_input`, one per descriptor with the results
of its reads, as long as the process has not exited and no call is left
inside the retry loop. -/
def run_inputs (tab : List evtab_entry) (ACPID_MAX_ERRS tpmutefix : Int) :
    List (Int × List Reading) → State → Outcome
  | [], s => .returned s
  | (fd, reads) :: rest, s =>
    match process_input tab ACPID_MAX_ERRS tpmutefix fd reads s with
    | .returned s' => run_inputs tab ACPID_MAX_ERRS tpmutefix rest s'
    | .exited s' => .exited s'
    | .interrupted s' => .interrupted s'

/-- The connection `find_connection(fd)` returns is tagged as a keyboard. -/
def is_keyboard (fd : Int) (list : List connection) : Bool :=
  match find_connection fd list with
  | none => false
  | some c => decide (c.kybd ≠ 0)

/-- The read result is a full record with `(type, code) = (EV_MSC, MSC_SCAN)`. -/
def full_scan (r : Reading) : Prop :=
  r.nbytes = sizeof_event ∧ r.event.type = EV_MSC ∧ r.event.code = MSC_SCAN

instance (r : Reading) : Decidable (full_scan r) := by
  unfold full_scan; infer_instance

/-- The connection `open_inputfile` builds for a path: the descriptor, the
copy of the path (`none` when `malloc` returned NULL) and the keyboard flag 0. -/
def new_connection (env : Files) (filename : String) : connection :=
  ⟨env.open_file filename, if env.malloc_null filename then none else some filename, 0⟩

/-- The path passes `open_inputfile` whatever the connection list: the open
succeeds, the probe is non-zero and the registry takes the connection. -/
def admissible (sizeof_long : Nat) (tab : List evtab_entry) (env : Files)
    (filename : String) : Prop :=
  env.open_file filename ≥ 0 ∧
  (∃ r, has_event sizeof_long tab (env.device (env.open_file filename)) = some r ∧ r ≠ 0) ∧
  env.refuses (new_connection env filename) = false

/-! ## Machine arithmetic: facts -/

theorem unsigned_sub_lt (a b : Nat) : unsigned_sub a b < 2 ^ 32 := by
  unfold unsigned_sub; omega

theorem to_int_unsigned_sub_small (a b : Nat) (ha : a < 2 ^ 31) (hb : b < 2 ^ 31) :
    to_int (unsigned_sub a b) = (a : Int) - (b : Int) := by
  unfold to_int unsigned_sub
  split <;> omega

theorem to_int_unsigned_sub_eq_zero (a b : Nat) (ha : a < 2 ^ 32) (hb : b < 2 ^ 32) :
    to_int (unsigned_sub a b) = 0 ↔ a = b := by
  unfold to_int unsigned_sub
  split <;> omega

theorem int_sub_small (a b : Int) (h1 : -2 ^ 31 ≤ a - b) (h2 : a - b < 2 ^ 31) :
    int_sub a b = a - b := by
  unfold int_sub; omega

theorem int_sub_eq_zero (a b : Int) (ha1 : -2 ^ 31 ≤ a) (ha2 : a < 2 ^ 31)
    (hb1 : -2 ^ 31 ≤ b) (hb2 : b < 2 ^ 31) : int_sub a b = 0 ↔ a = b := by
  unfold int_sub; omega

theorem bsearch_loop_sound {α β : Type} (compar : α → β → Int) (key : α) (base : List β) :
    ∀ (n l u : Nat) (hu : u ≤ base.length) (p : β), u - l ≤ n →
      bsearch_loop compar key base l u hu = some p → p ∈ base ∧ compar key p = 0 := by
  intro n
  induction n with
  | zero =>
    intro l u hu p hn h
    unfold bsearch_loop at h
    have : ¬ l < u := by omega
    simp [this] at h
  | succ n ih =>
    intro l u hu p hn h
    unfold bsearch_loop at h
    by_cases hlu : l < u
    · simp only [hlu, ↓reduceDIte] at h
      split at h
      · exact ih _ _ _ p (by omega) h
      · split at h
        · exact ih _ _ _ p (by omega) h
        · simp only [Option.some.injEq] at h
          subst h
          refine ⟨List.getElem_mem _, ?_⟩
          omega
    · simp [hlu] at h

theorem bsearch_loop_complete {α β : Type} (compar : α → β → Int) (key : α) (base : List β)
    (hneg : ∀ (i j : Nat) (hi : i < base.length) (hj : j < base.length), i ≤ j →
      compar key base[i] < 0 → compar key base[j] < 0)
    (hpos : ∀ (i j : Nat) (hi : i < base.length) (hj : j < base.length), i ≤ j →
      compar key base[j] > 0 → compar key base[i] > 0) :
    ∀ (n l u : Nat) (hu : u ≤ base.length), u - l ≤ n →
      (∃ (i : Nat) (hi : i < base.length), l ≤ i ∧ i < u ∧ compar key base[i] = 0) →
      ∃ p, bsearch_loop compar key base l u hu = some p := by
  intro n
  induction n with
  | zero =>
    intro l u hu hn ⟨i, hi, hli, hiu, _⟩
    omega
  | succ n ih =>
    intro l u hu hn ⟨i, hi, hli, hiu, hz⟩
    unfold bsearch_loop
    have hlu : l < u := by omega
    simp only [hlu, ↓reduceDIte]
    have hidx : (l + u) / 2 < base.length := by omega
    split
    · rename_i hc
      apply ih _ _ _ (by omega)
      refine ⟨i, hi, hli, ?_, hz⟩
      by_contra hge
      have := hneg ((l + u) / 2) i hidx hi (by omega) hc
      omega
    · split
      · rename_i hc
        apply ih _ _ _ (by omega)
        refine ⟨i, hi, ?_, hiu, hz⟩
        by_contra hge
        have := hpos i ((l + u) / 2) hi hidx (by omega) hc
        omega
      · exact ⟨_, rfl⟩

theorem bsearch_sound {α β : Type} (compar : α → β → Int) (key : α) (base : List β) (p : β)
    (h : bsearch compar key base = some p) : p ∈ base ∧ compar key p = 0 :=
  bsearch_loop_sound compar key base base.length 0 base.length (Nat.le_refl _) p (by omega) h

theorem bsearch_complete {α β : Type} (compar : α → β → Int) (key : α) (base : List β)
    (hneg : ∀ (i j : Nat) (hi : i < base.length) (hj : j < base.length), i ≤ j →
      compar key base[i] < 0 → compar key base[j] < 0)
    (hpos : ∀ (i j : Nat) (hi : i < base.length) (hj : j < base.length), i ≤ j →
      compar key base[j] > 0 → compar key base[i] > 0)
    (q : β) (hq : q ∈ base) (hz : compar key q = 0) :
    ∃ p, bsearch compar key base = some p := by
  obtain ⟨i, hi, rfl⟩ := List.getElem_of_mem hq
  exact bsearch_loop_complete compar key base hneg hpos base.length 0 base.length
    (Nat.le_refl _) (by omega) ⟨i, hi, by omega, hi, hz⟩

/-! ## Comparators: facts -/

theorem event_compare_3_eq_zero (l r : evtab_entry) (hl : in_range l) (hr : in_range r) :
    event_compare_3 l r = 0 ↔ l.type = r.type ∧ l.code = r.code ∧ l.value = r.value := by
  obtain ⟨hl1, hl2, hl3, hl4⟩ := hl
  obtain ⟨hr1, hr2, hr3, hr4⟩ := hr
  have ht := to_int_unsigned_sub_eq_zero l.type r.type hl1 hr1
  have hc := to_int_unsigned_sub_eq_zero l.code r.code hl2 hr2
  have hv := int_sub_eq_zero l.value r.value hl3 hl4 hr3 hr4
  unfold event_compare_3
  simp only
  split_ifs with h1 h2
  · constructor
    · intro h; exact absurd h h1
    · intro h; exact absurd (ht.2 h.1) h1
  · constructor
    · intro h; exact absurd h h2
    · intro h; exact absurd (hc.2 h.2.1) h2
  · have h1' := ht.1 (not_not.1 h1)
    have h2' := hc.1 (not_not.1 h2)
    rw [hv]
    exact ⟨fun h => ⟨h1', h2', h⟩, fun h => h.2.2⟩

theorem event_compare_2_eq_zero (l r : evtab_entry) (hl : in_range l) (hr : in_range r) :
    event_compare_2 l r = 0 ↔ l.type = r.type ∧ l.code = r.code := by
  obtain ⟨hl1, hl2, hl3, hl4⟩ := hl
  obtain ⟨hr1, hr2, hr3, hr4⟩ := hr
  have ht := to_int_unsigned_sub_eq_zero l.type r.type hl1 hr1
  have hc := to_int_unsigned_sub_eq_zero l.code r.code hl2 hr2
  unfold event_compare_2
  simp only
  split_ifs with h1
  · constructor
    · intro h; exact absurd h h1
    · intro h; exact absurd (ht.2 h.1) h1
  · have h1' := ht.1 (not_not.1 h1)
    rw [hc]
    exact ⟨fun h => ⟨h1', h⟩, fun h => h.2⟩

theorem event_compare_3_small (a b : evtab_entry) (ha : small a) (hb : small b) :
    event_compare_3 a b =
      if (a.type : Int) - b.type ≠ 0 then (a.type : Int) - b.type
      else if (a.code : Int) - b.code ≠ 0 then (a.code : Int) - b.code
      else a.value - b.value := by
  obtain ⟨ha1, ha2, ha3, ha4⟩ := ha
  obtain ⟨hb1, hb2, hb3, hb4⟩ := hb
  unfold event_compare_3
  simp only
  rw [to_int_unsigned_sub_small a.type b.type ha1 hb1,
    to_int_unsigned_sub_small a.code b.code ha2 hb2,
    int_sub_small a.value b.value (by omega) (by omega)]

theorem event_compare_2_small (a b : evtab_entry) (ha : small a) (hb : small b) :
    event_compare_2 a b =
      if (a.type : Int) - b.type ≠ 0 then (a.type : Int) - b.type
      else (a.code : Int) - b.code := by
  obtain ⟨ha1, ha2, ha3, ha4⟩ := ha
  obtain ⟨hb1, hb2, hb3, hb4⟩ := hb
  unfold event_compare_2
  simp only
  rw [to_int_unsigned_sub_small a.type b.type ha1 hb1,
    to_int_unsigned_sub_small a.code b.code ha2 hb2]

theorem event_compare_3_sign (a b : evtab_entry) (ha : small a) (hb : small b) :
    Int.sign (event_compare_3 a b) = lex_sign a b := by
  rw [event_compare_3_small a b ha hb]
  unfold lex_sign
  split_ifs <;> first
    | omega
    | rw [Int.sign_eq_neg_one_of_neg (by omega)]
    | rw [Int.sign_eq_one_of_pos (by omega)]
    | (have h0 : a.value - b.value = 0 := by omega
       rw [h0]; rfl)

theorem event_compare_3_neg_iff (a b : evtab_entry) (ha : small a) (hb : small b) :
    event_compare_3 a b < 0 ↔
      a.type < b.type ∨ (a.type = b.type ∧
        (a.code < b.code ∨ (a.code = b.code ∧ a.value < b.value))) := by
  rw [event_compare_3_small a b ha hb]
  split_ifs <;> omega

theorem event_compare_3_pos_iff (a b : evtab_entry) (ha : small a) (hb : small b) :
    event_compare_3 a b > 0 ↔
      b.type < a.type ∨ (a.type = b.type ∧
        (b.code < a.code ∨ (a.code = b.code ∧ b.value < a.value))) := by
  rw [event_compare_3_small a b ha hb]
  split_ifs <;> omega

theorem event_compare_2_neg_iff (a b : evtab_entry) (ha : small a) (hb : small b) :
    event_compare_2 a b < 0 ↔ a.type < b.type ∨ (a.type = b.type ∧ a.code < b.code) := by
  rw [event_compare_2_small a b ha hb]
  split_ifs <;> omega

theorem event_compare_2_pos_iff (a b : evtab_entry) (ha : small a) (hb : small b) :
    event_compare_2 a b > 0 ↔ b.type < a.type ∨ (a.type = b.type ∧ b.code < a.code) := by
  rw [event_compare_2_small a b ha hb]
  split_ifs <;> omega

theorem lex_le_iff (a b : evtab_entry) :
    lex_le a b ↔
      a.type < b.type ∨ (a.type = b.type ∧
        (a.code < b.code ∨ (a.code = b.code ∧ a.value ≤ b.value))) := by
  unfold lex_le lex_sign
  split_ifs <;> omega

/-! ## The sorted table: facts -/

theorem lex_le_getElem (tab : List evtab_entry) (hp : tab.Pairwise lex_le) (i j : Nat)
    (hi : i < tab.length) (hj : j < tab.length) (hij : i ≤ j) : lex_le tab[i] tab[j] := by
  rcases Nat.lt_or_eq_of_le hij with h | h
  · exact (List.pairwise_iff_getElem.1 hp) i j hi hj h
  · subst h
    rw [lex_le_iff]; omega

theorem bsearch_compare_3_complete (tab : List evtab_entry) (hs : ∀ e ∈ tab, small e)
    (hp : tab.Pairwise lex_le) (key : evtab_entry) (hk : small key)
    (q : evtab_entry) (hq : q ∈ tab) (hz : event_compare_3 key q = 0) :
    ∃ p, bsearch event_compare_3 key tab = some p := by
  apply bsearch_complete event_compare_3 key tab ?_ ?_ q hq hz
  · intro i j hi hj hij hc
    have h1 := (event_compare_3_neg_iff key tab[i] hk (hs _ (List.getElem_mem _))).1 hc
    have h2 := (lex_le_iff _ _).1 (lex_le_getElem tab hp i j hi hj hij)
    rw [event_compare_3_neg_iff key tab[j] hk (hs _ (List.getElem_mem _))]
    omega
  · intro i j hi hj hij hc
    have h1 := (event_compare_3_pos_iff key tab[j] hk (hs _ (List.getElem_mem _))).1 hc
    have h2 := (lex_le_iff _ _).1 (lex_le_getElem tab hp i j hi hj hij)
    rw [gt_iff_lt, ← gt_iff_lt, event_compare_3_pos_iff key tab[i] hk (hs _ (List.getElem_mem _))]
    omega

theorem bsearch_compare_2_complete (tab : List evtab_entry) (hs : ∀ e ∈ tab, small e)
    (hp : tab.Pairwise lex_le) (key : evtab_entry) (hk : small key)
    (q : evtab_entry) (hq : q ∈ tab) (hz : event_compare_2 key q = 0) :
    ∃ p, bsearch event_compare_2 key tab = some p := by
  apply bsearch_complete event_compare_2 key tab ?_ ?_ q hq hz
  · intro i j hi hj hij hc
    have h1 := (event_compare_2_neg_iff key tab[i] hk (hs _ (List.getElem_mem _))).1 hc
    have h2 := (lex_le_iff _ _).1 (lex_le_getElem tab hp i j hi hj hij)
    rw [event_compare_2_neg_iff key tab[j] hk (hs _ (List.getElem_mem _))]
    omega
  · intro i j hi hj hij hc
    have h1 := (event_compare_2_pos_iff key tab[j] hk (hs _ (List.getElem_mem _))).1 hc
    have h2 := (lex_le_iff _ _).1 (lex_le_getElem tab hp i j hi hj hij)
    rw [gt_iff_lt, ← gt_iff_lt, event_compare_2_pos_iff key tab[i] hk (hs _ (List.getElem_mem _))]
    omega

theorem small_in_range (e : evtab_entry) (h : small e) : in_range e := by
  unfold small at h; unfold in_range; omega

theorem evtab_small : ∀ e ∈ evtab, small e := by decide

theorem qsort_perm {β : Type} (compar : β → β → Int) (base : List β) :
    (qsort compar base).Perm base := by
  unfold qsort
  exact List.perm_insertionSort _ base

theorem evtab_sorted_perm : evtab_sorted.Perm evtab := by
  unfold evtab_sorted
  exact qsort_perm event_compare_3 evtab

theorem mem_evtab_sorted (e : evtab_entry) : e ∈ evtab_sorted ↔ e ∈ evtab :=
  evtab_sorted_perm.mem_iff

theorem evtab_sorted_small : ∀ e ∈ evtab_sorted, small e :=
  fun e he => evtab_small e ((mem_evtab_sorted e).1 he)

theorem evtab_sorted_pairwise : evtab_sorted.Pairwise lex_le := by decide

theorem event_string_sound (tab : List evtab_entry) (ev : input_event) (s : String)
    (htab : ∀ e ∈ tab, in_range e) (hev : in_range (search_key ev))
    (h : event_string tab ev = some s) : ∃ e ∈ tab, same_triple e ev ∧ e.str = s := by
  unfold event_string at h
  simp only at h
  split at h
  · exact absurd h (by simp)
  · rename_i p hb
    obtain ⟨hmem, hz⟩ := bsearch_sound _ _ _ _ hb
    have := (event_compare_3_eq_zero (search_key ev) p hev (htab p hmem)).1 hz
    refine ⟨p, hmem, ⟨this.1.symm, this.2.1.symm, this.2.2.symm⟩, ?_⟩
    simpa using h

theorem event_string_complete (tab : List evtab_entry) (hs : ∀ e ∈ tab, small e)
    (hp : tab.Pairwise lex_le) (ev : input_event) (hev : small (search_key ev))
    (e : evtab_entry) (he : e ∈ tab) (hsame : same_triple e ev) :
    ∃ p ∈ tab, same_triple p ev ∧ event_string tab ev = some p.str := by
  have hz : event_compare_3 (search_key ev) e = 0 :=
    (event_compare_3_eq_zero _ _ (small_in_range _ hev) (small_in_range _ (hs e he))).2
      ⟨hsame.1.symm, hsame.2.1.symm, hsame.2.2.symm⟩
  obtain ⟨p, hb⟩ := bsearch_compare_3_complete tab hs hp (search_key ev) hev e he hz
  obtain ⟨hmem, hz'⟩ := bsearch_sound _ _ _ _ hb
  have := (event_compare_3_eq_zero (search_key ev) p (small_in_range _ hev)
    (small_in_range _ (hs p hmem))).1 hz'
  refine ⟨p, hmem, ⟨this.1.symm, this.2.1.symm, this.2.2.symm⟩, ?_⟩
  unfold event_string
  simp only
  have hb' : bsearch event_compare_3 ⟨ev.type, ev.code, ev.value, ""⟩ tab = some p := hb
  rw [hb']

theorem bsearch_loop_step_lt {α β : Type} (compar : α → β → Int) (key : α) (base : List β)
    (l u : Nat) (hu : u ≤ base.length) (hlu : l < u) (p : β)
    (hp : base[(l + u) / 2]? = some p) (hc : compar key p < 0) :
    bsearch_loop compar key base l u hu
      = bsearch_loop compar key base l ((l + u) / 2) (by omega) := by
  have hidx : (l + u) / 2 < base.length := by omega
  have hp' : base[(l + u) / 2] = p := by
    rw [List.getElem?_eq_getElem hidx] at hp; simpa using hp
  rw [bsearch_loop]
  simp only [hlu, ↓reduceDIte, hp', hc, ↓reduceIte]

theorem bsearch_loop_step_gt {α β : Type} (compar : α → β → Int) (key : α) (base : List β)
    (l u : Nat) (hu : u ≤ base.length) (hlu : l < u) (p : β)
    (hp : base[(l + u) / 2]? = some p) (hc : compar key p > 0) :
    bsearch_loop compar key base l u hu
      = bsearch_loop compar key base ((l + u) / 2 + 1) u hu := by
  have hidx : (l + u) / 2 < base.length := by omega
  have hp' : base[(l + u) / 2] = p := by
    rw [List.getElem?_eq_getElem hidx] at hp; simpa using hp
  have hn : ¬ compar key p < 0 := by omega
  rw [bsearch_loop]
  simp only [hlu, ↓reduceDIte, hp', hc, hn, ↓reduceIte]

theorem bsearch_loop_step_eq {α β : Type} (compar : α → β → Int) (key : α) (base : List β)
    (l u : Nat) (hu : u ≤ base.length) (hlu : l < u) (p : β)
    (hp : base[(l + u) / 2]? = some p) (hc : compar key p = 0) :
    bsearch_loop compar key base l u hu = some p := by
  have hidx : (l + u) / 2 < base.length := by omega
  have hp' : base[(l + u) / 2] = p := by
    rw [List.getElem?_eq_getElem hidx] at hp; simpa using hp
  rw [bsearch_loop]
  simp only [hlu, ↓reduceDIte, hp', hc]
  simp

theorem to_unsigned_natCast (n : Nat) (h : n < 2 ^ 32) : to_unsigned (n : Int) = n := by
  unfold to_unsigned; omega

theorem event_string_own_row (e : evtab_entry) (he : e ∈ evtab)
    (huniq : ∀ p ∈ evtab, same_triple p (record_of e) → p = e) :
    event_string evtab_sorted (record_of e) = some e.str := by
  have hsm : small (search_key (record_of e)) := evtab_small e he
  obtain ⟨p, hp, hsame, hres⟩ := event_string_complete evtab_sorted evtab_sorted_small
    evtab_sorted_pairwise (record_of e) hsm e ((mem_evtab_sorted e).2 he) ⟨rfl, rfl, rfl⟩
  rw [hres, huniq p ((mem_evtab_sorted p).1 hp) hsame]

theorem event_string_none_of_absent (ev : input_event) (htype : ev.type < 2 ^ 16)
    (hcode : ev.code < 2 ^ 16) (hlo : -2 ^ 31 ≤ ev.value) (hhi : ev.value < 2 ^ 31)
    (habs : ∀ e ∈ evtab, ¬ same_triple e ev) :
    event_string evtab_sorted ev = none ∧
    ∀ e ∈ evtab, event_compare_3 (search_key ev) e = 0 → same_triple e ev := by
  have hev : in_range (search_key ev) := by
    unfold in_range search_key; simp only; omega
  constructor
  · cases hres : event_string evtab_sorted ev with
    | none => rfl
    | some s =>
      obtain ⟨e, he, hsame, _⟩ := event_string_sound evtab_sorted ev s
        (fun e he => small_in_range e (evtab_sorted_small e he)) hev hres
      exact absurd hsame (habs e ((mem_evtab_sorted e).1 he))
  · intro e he hz
    have := (event_compare_3_eq_zero (search_key ev) e hev
      (small_in_range e (evtab_small e he))).1 hz
    exact ⟨this.1.symm, this.2.1.symm, this.2.2.symm⟩

theorem need_event_sorted_iff (type code : Nat) (ht : type < EV_MAX) (hc : code < KEY_MAX) :
    need_event evtab_sorted (type : Int) (code : Int) ≠ 0 ↔
      ∃ e ∈ evtab, e.type = type ∧ e.code = code := by
  have ht' : type < 31 := ht
  have hc' : code < 767 := hc
  have hkey : small ⟨type, code, 0, ""⟩ := by
    unfold small; simp only; omega
  unfold need_event
  simp only
  rw [to_unsigned_natCast type (by omega), to_unsigned_natCast code (by omega)]
  constructor
  · intro h
    cases hb : bsearch event_compare_2 ⟨type, code, 0, ""⟩ evtab_sorted with
    | none => rw [hb] at h; exact absurd rfl h
    | some p =>
      obtain ⟨hmem, hz⟩ := bsearch_sound _ _ _ _ hb
      have := (event_compare_2_eq_zero _ p (small_in_range _ hkey)
        (small_in_range p (evtab_sorted_small p hmem))).1 hz
      exact ⟨p, (mem_evtab_sorted p).1 hmem, this.1.symm, this.2.symm⟩
  · rintro ⟨e, he, h1, h2⟩
    have hz : event_compare_2 ⟨type, code, 0, ""⟩ e = 0 :=
      (event_compare_2_eq_zero _ e (small_in_range _ hkey)
        (small_in_range e (evtab_small e he))).2 ⟨h1.symm, h2.symm⟩
    obtain ⟨p, hb⟩ := bsearch_compare_2_complete evtab_sorted evtab_sorted_small
      evtab_sorted_pairwise _ hkey e ((mem_evtab_sorted e).2 he) hz
    rw [hb]
    simp

/-! ## Capability probe: facts -/

theorem copy_to_user_length (ws rs : List Nat) : (copy_to_user ws rs).length = rs.length := by
  induction ws generalizing rs with
  | nil => simp [copy_to_user]
  | cons w ws ih =>
    cases rs with
    | nil => simp [copy_to_user]
    | cons r rs => simp [copy_to_user, ih]

theorem copy_to_user_getElem? (ws rs : List Nat) (k : Nat) (hk : k < rs.length) :
    (copy_to_user ws rs)[k]? = if k < ws.length then ws[k]? else rs[k]? := by
  induction ws generalizing rs k with
  | nil => simp [copy_to_user]
  | cons w ws ih =>
    cases rs with
    | nil => simp at hk
    | cons r rs =>
      cases k with
      | zero => simp [copy_to_user]
      | succ k =>
        simp only [copy_to_user, List.getElem?_cons_succ, List.length_cons,
          Nat.add_lt_add_iff_right]
        exact ih rs k (by simpa using hk)

theorem ioctl_EVIOCGBIT_length (dev : Device) (type : Nat) (row : List Nat) :
    (ioctl_EVIOCGBIT dev type row).length = row.length := by
  unfold ioctl_EVIOCGBIT
  split
  · rfl
  · exact copy_to_user_length _ _

theorem LONG_lt_NBITS (sizeof_long n : Nat) (hn : n < KEY_MAX) :
    LONG sizeof_long n < NBITS sizeof_long KEY_MAX := by
  unfold LONG NBITS
  have h : n ≤ KEY_MAX - 1 := by omega
  have h2 : n / BITS_PER_LONG sizeof_long ≤ (KEY_MAX - 1) / BITS_PER_LONG sizeof_long :=
    Nat.div_le_div_right h
  omega

theorem test_bit_isSome (sizeof_long n : Nat) (row : List Nat)
    (h : LONG sizeof_long n < row.length) :
    ∃ b, test_bit sizeof_long n row = some b ∧ (b = 0 ∨ b = 1) := by
  unfold test_bit
  rw [List.getElem?_eq_getElem h]
  refine ⟨_, rfl, ?_⟩
  rw [Nat.and_one_is_mod]
  omega

theorem test_bit_ioctl_of_dev_bit (sizeof_long : Nat) (dev : Device) (type n : Nat)
    (row : List Nat) (hrow : LONG sizeof_long n < row.length)
    (h : dev_bit sizeof_long dev type n = true) :
    test_bit sizeof_long n (ioctl_EVIOCGBIT dev type row) = some 1 := by
  unfold dev_bit at h
  unfold ioctl_EVIOCGBIT
  cases hd : dev.evbit type with
  | none => rw [hd] at h; simp at h
  | some words =>
    rw [hd] at h
    simp only at h ⊢
    cases ht : test_bit sizeof_long n words with
    | none => rw [ht] at h; simp at h
    | some b =>
      rw [ht] at h
      simp only [decide_eq_true_eq] at h
      unfold test_bit at ht ⊢
      rw [copy_to_user_getElem? _ _ _ hrow]
      cases hw : words[LONG sizeof_long n]? with
      | none => rw [hw] at ht; simp at ht
      | some w =>
        have hlt : LONG sizeof_long n < words.length := by
          by_contra hge
          rw [List.getElem?_eq_none (by omega)] at hw
          simp at hw
        rw [hw] at ht
        simp only [Option.some.injEq] at ht
        simp only [hlt, ↓reduceIte, hw, Option.some.injEq]
        rw [Nat.and_one_is_mod] at ht ⊢
        omega

theorem test_bit_ioctl_of_empty (sizeof_long : Nat) (dev : Device) (type n len : Nat)
    (hlen : LONG sizeof_long n < len)
    (h : dev_bit sizeof_long dev type n = false) :
    test_bit sizeof_long n (ioctl_EVIOCGBIT dev type (List.replicate len 0)) = some 0 := by
  have hzero : test_bit sizeof_long n (List.replicate len 0) = some 0 := by
    unfold test_bit
    rw [List.getElem?_eq_getElem (by simpa using hlen)]
    simp
  unfold dev_bit at h
  unfold ioctl_EVIOCGBIT
  cases hd : dev.evbit type with
  | none => simpa using hzero
  | some words =>
    rw [hd] at h
    simp only at h ⊢
    by_cases hlt : LONG sizeof_long n < words.length
    · unfold test_bit at h ⊢
      rw [copy_to_user_getElem? _ _ _ (by simpa using hlen)]
      simp only [hlt, ↓reduceIte]
      rw [List.getElem?_eq_getElem hlt] at h ⊢
      simp only [decide_eq_false_iff_not, not_not] at h
      simp only [Option.some.injEq]
      exact h
    · unfold test_bit at hzero ⊢
      rw [copy_to_user_getElem? _ _ _ (by simpa using hlen)]
      simp only [hlt, ↓reduceIte]
      exact hzero

theorem has_event_codes_spec (sizeof_long : Nat) (tab : List evtab_entry) (type : Nat)
    (row : List Nat) (hrow : row.length = NBITS sizeof_long KEY_MAX) :
    ∀ codes : List Nat, (∀ c ∈ codes, c < KEY_MAX) →
      ∃ r, has_event_codes sizeof_long tab type row codes = some r ∧
        (r = true ↔ ∃ c ∈ codes, ∃ b, test_bit sizeof_long c row = some b ∧ b ≠ 0 ∧
          need_event tab type c ≠ 0) := by
  intro codes
  induction codes with
  | nil =>
    intro _
    exact ⟨false, rfl, by simp⟩
  | cons c cs ih =>
    intro hc
    obtain ⟨b, hb, _⟩ := test_bit_isSome sizeof_long c row
      (by rw [hrow]; exact LONG_lt_NBITS sizeof_long c (hc c (List.mem_cons_self _ _)))
    obtain ⟨r, hr, hiff⟩ := ih (fun x hx => hc x (List.mem_cons_of_mem _ hx))
    unfold has_event_codes
    rw [hb]
    simp only
    by_cases hhit : b ≠ 0 ∧ need_event tab type c ≠ 0
    · rw [if_pos hhit]
      exact ⟨true, rfl, by
        simp only [true_iff]
        exact ⟨c, List.mem_cons_self _ _, b, hb, hhit.1, hhit.2⟩⟩
    · rw [if_neg hhit]
      refine ⟨r, hr, ?_⟩
      rw [hiff]
      constructor
      · rintro ⟨x, hx, hrest⟩
        exact ⟨x, List.mem_cons_of_mem _ hx, hrest⟩
      · rintro ⟨x, hx, b', hb', hne, hneed⟩
        rcases List.mem_cons.1 hx with rfl | hx'
        · rw [hb] at hb'
          simp only [Option.some.injEq] at hb'
          subst hb'
          exact absurd ⟨hne, hneed⟩ hhit
        · exact ⟨x, hx', b', hb', hne, hneed⟩

theorem has_event_types_zero (sizeof_long : Nat) (tab : List evtab_entry) (dev : Device)
    (bit : List (List Nat)) (row0 : List Nat) (h0 : bit[0]? = some row0) :
    ∀ types : List Nat, (∀ t ∈ types, test_bit sizeof_long t row0 = some 0) →
      has_event_types sizeof_long tab dev types bit = some 0 := by
  intro types
  induction types with
  | nil => intro _; rfl
  | cons t ts ih =>
    intro h
    unfold has_event_types
    generalize List.range KEY_MAX = codes
    rw [h0]
    simp only
    rw [h t (List.mem_cons_self _ _)]
    simp only [ne_eq, not_true_eq_false, ↓reduceIte]
    exact ih (fun x hx => h x (List.mem_cons_of_mem _ hx))

theorem has_event_types_hit (sizeof_long : Nat) (tab : List evtab_entry) (dev : Device)
    (row0 : List Nat) (hrow0 : row0.length = NBITS sizeof_long KEY_MAX) :
    ∀ (types : List Nat) (bit : List (List Nat)), (∀ t ∈ types, t < EV_MAX) →
      bit.length = EV_MAX → (∀ row ∈ bit, row.length = NBITS sizeof_long KEY_MAX) →
      bit[0]? = some row0 →
      (∃ t ∈ types, t ≠ EV_SYN ∧ test_bit sizeof_long t row0 = some 1 ∧
        ∃ c, c < KEY_MAX ∧ dev_bit sizeof_long dev t c = true ∧ need_event tab t c ≠ 0) →
      has_event_types sizeof_long tab dev types bit = some 1 := by
  intro types
  induction types with
  | nil =>
    intro bit _ _ _ _ ⟨t, ht, _⟩
    simp at ht
  | cons t ts ih =>
    intro bit htypes hlen hrows h0 hhit
    have htlt : t < EV_MAX := htypes t (List.mem_cons_self _ _)
    have hts : ∀ x ∈ ts, x < EV_MAX := fun x hx => htypes x (List.mem_cons_of_mem _ hx)
    obtain ⟨b, hb, hb01⟩ := test_bit_isSome sizeof_long t row0
      (by rw [hrow0]; exact LONG_lt_NBITS sizeof_long t (by unfold EV_MAX at htlt; unfold KEY_MAX; omega))
    unfold has_event_types
    generalize hcodes : List.range KEY_MAX = codes
    rw [h0]
    simp only
    rw [hb]
    simp only
    by_cases hbz : b ≠ 0
    · rw [if_pos hbz]
      by_cases hsyn : t = EV_SYN
      · rw [if_pos hsyn]
        apply ih bit hts hlen hrows h0
        obtain ⟨x, hx, hxs, hrest⟩ := hhit
        rcases List.mem_cons.1 hx with rfl | hx'
        · exact absurd hsyn hxs
        · exact ⟨x, hx', hxs, hrest⟩
      · rw [if_neg hsyn]
        have hrowt : t < bit.length := by rw [hlen]; exact htlt
        rw [List.getElem?_eq_getElem hrowt]
        simp only
        have hlenr : (ioctl_EVIOCGBIT dev t bit[t]).length = NBITS sizeof_long KEY_MAX := by
          rw [ioctl_EVIOCGBIT_length]; exact hrows _ (List.getElem_mem _)
        obtain ⟨r, hr, hiff⟩ := has_event_codes_spec sizeof_long tab t
          (ioctl_EVIOCGBIT dev t bit[t]) hlenr (List.range KEY_MAX)
          (fun c hc => List.mem_range.1 hc)
        rw [hcodes] at hr
        rw [hr]
        cases r with
        | true => rfl
        | false =>
          simp only
          have hno : ¬ ∃ c ∈ List.range KEY_MAX, ∃ b,
              test_bit sizeof_long c (ioctl_EVIOCGBIT dev t bit[t]) = some b ∧ b ≠ 0 ∧
                need_event tab t c ≠ 0 := by
            intro hex
            have := hiff.2 hex
            simp at this
          apply ih _ hts
          · rw [List.length_set]; exact hlen
          · intro row hrow
            rcases List.mem_or_eq_of_mem_set hrow with hmem | heq
            · exact hrows row hmem
            · rw [heq]; exact hlenr
          · rw [List.getElem?_set_ne (by
              intro h; apply hsyn; unfold EV_SYN; omega)]
            exact h0
          · obtain ⟨x, hx, hxs, hx1, c, hc, hdev, hneed⟩ := hhit
            rcases List.mem_cons.1 hx with rfl | hx'
            · exfalso
              apply hno
              refine ⟨c, List.mem_range.2 hc, 1, ?_, by decide, hneed⟩
              exact test_bit_ioctl_of_dev_bit sizeof_long dev x c _
                (by rw [hrows _ (List.getElem_mem _)]; exact LONG_lt_NBITS sizeof_long c hc) hdev
            · exact ⟨x, hx', hxs, hx1, c, hc, hdev, hneed⟩
    · rw [if_neg hbz]
      apply ih bit hts hlen hrows h0
      obtain ⟨x, hx, hxs, hx1, hrest⟩ := hhit
      rcases List.mem_cons.1 hx with rfl | hx'
      · rw [hb] at hx1
        simp only [Option.some.injEq] at hx1
        omega
      · exact ⟨x, hx', hxs, hx1, hrest⟩

theorem has_event_eq (sizeof_long : Nat) (tab : List evtab_entry) (dev : Device) :
    has_event sizeof_long tab dev =
      has_event_types sizeof_long tab dev (List.range EV_MAX)
        ((List.replicate EV_MAX (List.replicate (NBITS sizeof_long KEY_MAX) 0)).set 0
          (ioctl_EVIOCGBIT dev 0 (List.replicate (NBITS sizeof_long KEY_MAX) 0))) := by
  unfold has_event
  have h : (List.replicate EV_MAX (List.replicate (NBITS sizeof_long KEY_MAX) 0))[0]?
      = some (List.replicate (NBITS sizeof_long KEY_MAX) 0) := by
    rw [List.getElem?_replicate]
    rfl
  simp only [h]

theorem has_event_bit0 (sizeof_long : Nat) (dev : Device) :
    ((List.replicate EV_MAX (List.replicate (NBITS sizeof_long KEY_MAX) 0)).set 0
        (ioctl_EVIOCGBIT dev 0 (List.replicate (NBITS sizeof_long KEY_MAX) 0)))[0]?
      = some (ioctl_EVIOCGBIT dev 0 (List.replicate (NBITS sizeof_long KEY_MAX) 0)) := by
  rw [List.getElem?_set_self]
  rw [List.length_replicate]
  decide

theorem has_event_of_empty (sizeof_long : Nat) (tab : List evtab_entry) (dev : Device)
    (h : ∀ n, n < EV_MAX → dev_bit sizeof_long dev 0 n = false) :
    has_event sizeof_long tab dev = some 0 := by
  rw [has_event_eq]
  apply has_event_types_zero sizeof_long tab dev _ _ (has_event_bit0 sizeof_long dev)
  intro t ht
  have htlt : t < EV_MAX := List.mem_range.1 ht
  apply test_bit_ioctl_of_empty
  · exact LONG_lt_NBITS sizeof_long t (by unfold EV_MAX at htlt; unfold KEY_MAX; omega)
  · exact h t htlt

theorem has_event_of_hit (sizeof_long : Nat) (tab : List evtab_entry) (dev : Device)
    (t c : Nat) (ht0 : t ≠ EV_SYN) (ht : t < EV_MAX) (hc : c < KEY_MAX)
    (hroot : dev_bit sizeof_long dev 0 t = true) (hcode : dev_bit sizeof_long dev t c = true)
    (hneed : need_event tab t c ≠ 0) :
    has_event sizeof_long tab dev = some 1 := by
  rw [has_event_eq]
  have hlen0 : (ioctl_EVIOCGBIT dev 0 (List.replicate (NBITS sizeof_long KEY_MAX) 0)).length
      = NBITS sizeof_long KEY_MAX := by
    rw [ioctl_EVIOCGBIT_length, List.length_replicate]
  apply has_event_types_hit sizeof_long tab dev _ hlen0 (List.range EV_MAX) _
    (fun x hx => List.mem_range.1 hx)
  · rw [List.length_set, List.length_replicate]
  · intro row hrow
    rcases List.mem_or_eq_of_mem_set hrow with hmem | heq
    · rw [(List.mem_replicate.1 hmem).2, List.length_replicate]
    · rw [heq]; exact hlen0
  · exact has_event_bit0 sizeof_long dev
  · refine ⟨t, List.mem_range.2 ht, ht0, ?_, c, hc, hcode, hneed⟩
    apply test_bit_ioctl_of_dev_bit _ _ _ _ _ _ hroot
    rw [List.length_replicate]
    exact LONG_lt_NBITS sizeof_long t (by unfold EV_MAX at ht; unfold KEY_MAX; omega)

theorem evtab_scanned : ∀ e ∈ evtab, e.type ≠ EV_SYN ∧ e.type < EV_MAX ∧ e.code < KEY_MAX := by
  decide

/-! ## Mute filter: facts -/

theorem mute_run_repeats (rest : List input_event) :
    ∀ (n rc : Nat), rc < 2 ^ 64 →
      mute_run (List.replicate n (mute_event 2) ++ rest) rc
        = (List.replicate n none ++ (mute_run rest ((rc + n) % 2 ^ 64)).1,
            (mute_run rest ((rc + n) % 2 ^ 64)).2) := by
  intro n
  induction n with
  | zero =>
    intro rc hrc
    have : rc % 18446744073709551616 = rc := by omega
    simp [this]
  | succ n ih =>
    intro rc hrc
    have hstep : mute_string (mute_event 2) rc = (none, (rc + 1) % 2 ^ 64) := by
      simp [mute_string, mute_event]
    have hmod : ((rc + 1) % 2 ^ 64 + n) % 2 ^ 64 = (rc + (n + 1)) % 2 ^ 64 := by omega
    rw [List.replicate_succ, List.cons_append, mute_run]
    simp only [hstep]
    rw [ih ((rc + 1) % 2 ^ 64) (by omega), hmod]
    simp [List.replicate_succ]

/-! ## Reader: facts -/

theorem event_string_mute_press :
    event_string evtab_sorted (mute_event 1) = some "button/mute MUTE 00000080 00000000" :=
  event_string_own_row ⟨EV_KEY, KEY_MUTE, 1, "button/mute MUTE 00000080 00000000"⟩
    (by decide) (by decide)

theorem event_string_mute_repeat : event_string evtab_sorted (mute_event 2) = none :=
  (event_string_none_of_absent (mute_event 2) (by decide) (by decide) (by decide) (by decide)
    (by decide)).1

theorem event_string_mute_release : event_string evtab_sorted (mute_event 0) = none :=
  (event_string_none_of_absent (mute_event 0) (by decide) (by decide) (by decide) (by decide)
    (by decide)).1

theorem set_kybd_not_scan (event : input_event) (fd : Int) (connections : List connection)
    (h : ¬ (event.type = EV_MSC ∧ event.code = MSC_SCAN)) :
    (if event.type = EV_MSC ∧ event.code = MSC_SCAN then set_kybd fd connections
      else connections) = connections := if_neg h

theorem process_input_full_none (tab : List evtab_entry) (ACPID_MAX_ERRS tpmutefix fd : Int)
    (reads : List Reading) (r : Reading) (s : State)
    (hread : TEMP_FAILURE_RETRY reads = some r) (hfull : r.nbytes = sizeof_event)
    (hscan : ¬ (r.event.type = EV_MSC ∧ r.event.code = MSC_SCAN))
    (hnone : (convert_event tab tpmutefix r.event s.repeat_count).1 = none) :
    process_input tab ACPID_MAX_ERRS tpmutefix fd reads s
      = .returned { s with
          repeat_count := (convert_event tab tpmutefix r.event s.repeat_count).2 } := by
  have h0 : ¬ r.nbytes = 0 := by rw [hfull]; decide
  have h1 : ¬ r.nbytes < 0 := by rw [hfull]; decide
  have h2 : ¬ r.nbytes ≠ sizeof_event := by rw [hfull]; simp
  unfold process_input
  rw [hread]
  dsimp only
  rw [if_neg h0, if_neg h1, if_neg h2]
  simp only [if_neg hscan]
  cases hc : convert_event tab tpmutefix r.event s.repeat_count with
  | mk str rc =>
    rw [hc] at hnone
    simp only at hnone
    subst hnone
    rfl

theorem process_input_full_some (tab : List evtab_entry) (ACPID_MAX_ERRS tpmutefix fd : Int)
    (reads : List Reading) (r : Reading) (s : State)
    (hread : TEMP_FAILURE_RETRY reads = some r) (hfull : r.nbytes = sizeof_event)
    (hscan : ¬ (r.event.type = EV_MSC ∧ r.event.code = MSC_SCAN))
    (str : String) (hsome : (convert_event tab tpmutefix r.event s.repeat_count).1 = some str) :
    ∃ s', process_input tab ACPID_MAX_ERRS tpmutefix fd reads s = .returned s' ∧
      s'.repeat_count = (convert_event tab tpmutefix r.event s.repeat_count).2 ∧
      (s'.handled = s.handled ∨ s'.handled = s.handled ++ [str] ∨
        s'.handled = s.handled ++ [str ++ " K"]) ∧
      (r.locked = false → (∀ c ∈ s.connections, c.kybd = 0) →
        s'.handled = s.handled ++ [str]) := by
  have h0 : ¬ r.nbytes = 0 := by rw [hfull]; decide
  have h1 : ¬ r.nbytes < 0 := by rw [hfull]; decide
  have h2 : ¬ r.nbytes ≠ sizeof_event := by rw [hfull]; simp
  unfold process_input
  rw [hread]
  dsimp only
  rw [if_neg h0, if_neg h1, if_neg h2]
  simp only [if_neg hscan]
  cases hc : convert_event tab tpmutefix r.event s.repeat_count with
  | mk str' rc =>
    rw [hc] at hsome
    simp only at hsome
    subst hsome
    simp only
    cases hl : r.locked with
    | true =>
      exact ⟨_, rfl, rfl, Or.inl rfl, fun h => absurd h (by simp)⟩
    | false =>
      simp only [Bool.false_eq_true, ↓reduceIte]
      refine ⟨_, rfl, rfl, ?_, ?_⟩
      · simp only
        split_ifs
        · exact Or.inr (Or.inr rfl)
        · exact Or.inr (Or.inl rfl)
      · intro _ hk
        have hnk : (match find_connection fd s.connections with
            | none => false
            | some c => decide (c.kybd ≠ 0)) = false := by
          cases hf : find_connection fd s.connections with
          | none => rfl
          | some c =>
            have hmem : c ∈ s.connections := by
              unfold find_connection at hf
              exact List.mem_of_find?_eq_some hf
            simp [hk c hmem]
        simp only [hnk, Bool.false_eq_true, false_and, ↓reduceIte]

/-! ## Reader: error paths -/

theorem TEMP_FAILURE_RETRY_not_eintr :
    ∀ (reads : List Reading) (r : Reading), TEMP_FAILURE_RETRY reads = some r → ¬ eintr r := by
  intro reads
  induction reads with
  | nil => intro r h; simp [TEMP_FAILURE_RETRY] at h
  | cons r0 rest ih =>
    intro r h
    unfold TEMP_FAILURE_RETRY at h
    by_cases h0 : r0.nbytes = -1 ∧ r0.errno = EINTR
    · rw [if_pos h0] at h
      exact ih r h
    · rw [if_neg h0] at h
      simp only [Option.some.injEq] at h
      subst h
      exact h0

theorem TEMP_FAILURE_RETRY_eintr (r0 : Reading) (reads : List Reading) (h : eintr r0) :
    TEMP_FAILURE_RETRY (r0 :: reads) = TEMP_FAILURE_RETRY reads := by
  unfold eintr at h
  rw [TEMP_FAILURE_RETRY, if_pos h]

theorem TEMP_FAILURE_RETRY_first (r0 : Reading) (reads : List Reading) (h : ¬ eintr r0) :
    TEMP_FAILURE_RETRY (r0 :: reads) = some r0 := by
  unfold eintr at h
  rw [TEMP_FAILURE_RETRY, if_neg h]

theorem process_input_interrupted (tab : List evtab_entry)
    (ACPID_MAX_ERRS tpmutefix fd : Int) (reads : List Reading) (s : State)
    (hread : TEMP_FAILURE_RETRY reads = none) :
    process_input tab ACPID_MAX_ERRS tpmutefix fd reads s = .interrupted s := by
  unfold process_input
  rw [hread]

theorem process_input_transient (tab : List evtab_entry) (ACPID_MAX_ERRS tpmutefix fd : Int)
    (reads : List Reading) (r : Reading) (s : State)
    (hread : TEMP_FAILURE_RETRY reads = some r) (h : transient r) :
    process_input tab ACPID_MAX_ERRS tpmutefix fd reads s
      = if s.nerrs + 1 ≥ ACPID_MAX_ERRS then .exited { s with nerrs := s.nerrs + 1 }
        else .returned { s with nerrs := s.nerrs + 1 } := by
  obtain ⟨h1, h2⟩ := h
  have h0 : ¬ r.nbytes = 0 := by omega
  unfold process_input
  rw [hread]
  dsimp only
  rw [if_neg h0, if_pos h1, if_neg h2]

theorem process_input_closed (tab : List evtab_entry) (ACPID_MAX_ERRS tpmutefix fd : Int)
    (reads : List Reading) (r : Reading) (s : State)
    (hread : TEMP_FAILURE_RETRY reads = some r) (h : r.nbytes = 0) :
    process_input tab ACPID_MAX_ERRS tpmutefix fd reads s = .exited s := by
  unfold process_input
  rw [hread]
  dsimp only
  rw [if_pos h]

theorem process_input_enodev (tab : List evtab_entry) (ACPID_MAX_ERRS tpmutefix fd : Int)
    (reads : List Reading) (r : Reading) (s : State)
    (hread : TEMP_FAILURE_RETRY reads = some r) (h1 : r.nbytes < 0) (h2 : r.errno = ENODEV) :
    process_input tab ACPID_MAX_ERRS tpmutefix fd reads s
      = .returned { s with connections := delete_connection fd s.connections } := by
  have h0 : ¬ r.nbytes = 0 := by omega
  unfold process_input
  rw [hread]
  dsimp only
  rw [if_neg h0, if_pos h1, if_pos h2]

theorem process_input_short (tab : List evtab_entry) (ACPID_MAX_ERRS tpmutefix fd : Int)
    (reads : List Reading) (r : Reading) (s : State)
    (hread : TEMP_FAILURE_RETRY reads = some r) (h1 : 0 < r.nbytes)
    (h2 : r.nbytes ≠ sizeof_event) :
    process_input tab ACPID_MAX_ERRS tpmutefix fd reads s = .returned s := by
  have h0 : ¬ r.nbytes = 0 := by omega
  have hn : ¬ r.nbytes < 0 := by omega
  unfold process_input
  rw [hread]
  dsimp only
  rw [if_neg h0, if_neg hn, if_pos h2]

theorem process_input_full (tab : List evtab_entry) (ACPID_MAX_ERRS tpmutefix fd : Int)
    (reads : List Reading) (r : Reading) (s : State)
    (hread : TEMP_FAILURE_RETRY reads = some r) (hfull : r.nbytes = sizeof_event) :
    ∃ s', process_input tab ACPID_MAX_ERRS tpmutefix fd reads s = .returned s' ∧
      s'.nerrs = s.nerrs ∧
      s'.repeat_count = (convert_event tab tpmutefix r.event s.repeat_count).2 ∧
      s'.connections = (if r.event.type = EV_MSC ∧ r.event.code = MSC_SCAN
        then set_kybd fd s.connections else s.connections) ∧
      s'.handled =
        match (convert_event tab tpmutefix r.event s.repeat_count).1 with
        | none => s.handled
        | some n =>
          if r.locked = true then s.handled
          else s.handled ++
            [if is_keyboard fd s'.connections = true ∧ n.length ≤ 97 then n ++ " K" else n] := by
  have h0 : ¬ r.nbytes = 0 := by rw [hfull]; decide
  have h1 : ¬ r.nbytes < 0 := by rw [hfull]; decide
  have h2 : ¬ r.nbytes ≠ sizeof_event := by rw [hfull]; simp
  unfold process_input
  rw [hread]
  dsimp only
  rw [if_neg h0, if_neg h1, if_neg h2]
  cases hc : convert_event tab tpmutefix r.event s.repeat_count with
  | mk str rc =>
    cases str with
    | none => exact ⟨_, rfl, rfl, rfl, rfl, rfl⟩
    | some n =>
      dsimp only
      cases hl : r.locked with
      | true => exact ⟨_, rfl, rfl, rfl, rfl, by simp⟩
      | false =>
        have hlen : strnlen n sizeof_str2 ≤ sizeof_str2 - 3 ↔ n.length ≤ 97 := by
          unfold strnlen sizeof_str2; omega
        refine ⟨_, rfl, rfl, rfl, rfl, ?_⟩
        simp only [Bool.false_eq_true, ↓reduceIte, is_keyboard, hlen]

theorem counted_iff (reads : List Reading) :
    counted reads = true ↔ ∃ r, TEMP_FAILURE_RETRY reads = some r ∧ transient r := by
  unfold counted
  cases h : TEMP_FAILURE_RETRY reads with
  | none => simp
  | some r => simp

theorem process_input_nerrs (tab : List evtab_entry) (ACPID_MAX_ERRS tpmutefix fd : Int)
    (reads : List Reading) (s : State) :
    (process_input tab ACPID_MAX_ERRS tpmutefix fd reads s).state.nerrs
      = if counted reads = true then s.nerrs + 1 else s.nerrs := by
  cases hread : TEMP_FAILURE_RETRY reads with
  | none =>
    have hc : ¬ counted reads = true := by
      rw [counted_iff, hread]; simp
    rw [process_input_interrupted _ _ _ _ _ _ hread, if_neg hc]
    rfl
  | some r =>
    have hc : counted reads = true ↔ transient r := by
      rw [counted_iff, hread]; simp
    by_cases ht : transient r
    · rw [process_input_transient _ _ _ _ _ _ _ hread ht, if_pos (hc.2 ht)]
      split_ifs <;> rfl
    · rw [if_neg (fun h => ht (hc.1 h))]
      by_cases h0 : r.nbytes = 0
      · rw [process_input_closed _ _ _ _ _ _ _ hread h0]; rfl
      · by_cases h1 : r.nbytes < 0
        · have h2 : r.errno = ENODEV := by
            by_contra h2; exact ht ⟨h1, h2⟩
          rw [process_input_enodev _ _ _ _ _ _ _ hread h1 h2]; rfl
        · by_cases h3 : r.nbytes = sizeof_event
          · obtain ⟨s', hs', hn, _⟩ :=
              process_input_full tab ACPID_MAX_ERRS tpmutefix fd reads r s hread h3
            rw [hs']; exact hn
          · rw [process_input_short _ _ _ _ _ _ _ hread (by omega) h3]; rfl

theorem process_input_fatal (tab : List evtab_entry) (ACPID_MAX_ERRS tpmutefix fd : Int)
    (reads : List Reading) (s : State) :
    (process_input tab ACPID_MAX_ERRS tpmutefix fd reads s).fatal = true ↔
      ∃ r, TEMP_FAILURE_RETRY reads = some r ∧
        (r.nbytes = 0 ∨ (transient r ∧ s.nerrs + 1 ≥ ACPID_MAX_ERRS)) := by
  cases hread : TEMP_FAILURE_RETRY reads with
  | none =>
    rw [process_input_interrupted _ _ _ _ _ _ hread]
    simp [Outcome.fatal]
  | some r =>
    simp only [Option.some.injEq, exists_eq_left']
    by_cases ht : transient r
    · rw [process_input_transient _ _ _ _ _ _ _ hread ht]
      have h0 : ¬ r.nbytes = 0 := by have := ht.1; omega
      split_ifs with hge
      · simp [Outcome.fatal, ht, hge]
      · simp [Outcome.fatal, h0, hge]
    · by_cases h0 : r.nbytes = 0
      · rw [process_input_closed _ _ _ _ _ _ _ hread h0]; simp [Outcome.fatal, h0]
      · by_cases h1 : r.nbytes < 0
        · have h2 : r.errno = ENODEV := by
            by_contra h2; exact ht ⟨h1, h2⟩
          rw [process_input_enodev _ _ _ _ _ _ _ hread h1 h2]; simp [Outcome.fatal, h0, ht]
        · by_cases h3 : r.nbytes = sizeof_event
          · obtain ⟨s', hs', _⟩ :=
              process_input_full tab ACPID_MAX_ERRS tpmutefix fd reads r s hread h3
            rw [hs']; simp [Outcome.fatal, h0, ht]
          · rw [process_input_short _ _ _ _ _ _ _ hread (by omega) h3]
            simp [Outcome.fatal, h0, ht]

theorem run_inputs_transient_returns (tab : List evtab_entry) (ACPID_MAX_ERRS tpmutefix : Int) :
    ∀ (rs : List (Int × List Reading)) (s : State), (∀ x ∈ rs, counted x.2 = true) →
      s.nerrs + rs.length < ACPID_MAX_ERRS →
      run_inputs tab ACPID_MAX_ERRS tpmutefix rs s
        = .returned { s with nerrs := s.nerrs + rs.length } := by
  intro rs
  induction rs with
  | nil => intro s _ _; simp [run_inputs]
  | cons x rest ih =>
    intro s hall hlt
    obtain ⟨fd, reads⟩ := x
    obtain ⟨r, hread, ht⟩ := (counted_iff reads).1 (hall (fd, reads) (List.mem_cons_self _ _))
    simp only [List.length_cons, Nat.cast_add, Nat.cast_one] at hlt
    unfold run_inputs
    rw [process_input_transient _ _ _ _ _ _ _ hread ht, if_neg (by omega)]
    simp only
    rw [ih _ (fun y hy => hall y (List.mem_cons_of_mem _ hy)) (by simp only; omega)]
    simp only [List.length_cons, Nat.cast_add, Nat.cast_one]
    congr 2
    omega

theorem run_inputs_fatal (tab : List evtab_entry) (ACPID_MAX_ERRS tpmutefix : Int) :
    ∀ (rs : List (Int × List Reading)) (s : State),
      (∀ x ∈ rs, TEMP_FAILURE_RETRY x.2 ≠ none) →
      1 ≤ rs.countP (fun x => counted x.2) →
      s.nerrs + (rs.countP (fun x => counted x.2) : Nat) ≥ ACPID_MAX_ERRS →
      (run_inputs tab ACPID_MAX_ERRS tpmutefix rs s).fatal = true := by
  intro rs
  induction rs with
  | nil => intro s _ h1 _; simp at h1
  | cons x rest ih =>
    intro s hdone h1 hge
    obtain ⟨fd, reads⟩ := x
    have hrest : ∀ y ∈ rest, TEMP_FAILURE_RETRY y.2 ≠ none :=
      fun y hy => hdone y (List.mem_cons_of_mem _ hy)
    unfold run_inputs
    cases hp : process_input tab ACPID_MAX_ERRS tpmutefix fd reads s with
    | exited s' => rfl
    | interrupted s' =>
      exfalso
      cases hread : TEMP_FAILURE_RETRY reads with
      | none => exact hdone (fd, reads) (List.mem_cons_self _ _) hread
      | some r =>
        by_cases h0 : r.nbytes = 0
        · rw [process_input_closed _ _ _ _ _ _ _ hread h0] at hp
          exact Outcome.noConfusion hp
        · by_cases hneg : r.nbytes < 0
          · by_cases h2 : r.errno = ENODEV
            · rw [process_input_enodev _ _ _ _ _ _ _ hread hneg h2] at hp
              exact Outcome.noConfusion hp
            · rw [process_input_transient _ _ _ _ _ _ _ hread ⟨hneg, h2⟩] at hp
              split_ifs at hp
          · by_cases h3 : r.nbytes = sizeof_event
            · obtain ⟨s'', hs'', _⟩ :=
                process_input_full tab ACPID_MAX_ERRS tpmutefix fd reads r s hread h3
              rw [hs''] at hp
              exact Outcome.noConfusion hp
            · rw [process_input_short _ _ _ _ _ _ _ hread (by omega) h3] at hp
              exact Outcome.noConfusion hp
    | returned s' =>
      simp only
      have hnf : ¬ ∃ r, TEMP_FAILURE_RETRY reads = some r ∧
          (r.nbytes = 0 ∨ (transient r ∧ s.nerrs + 1 ≥ ACPID_MAX_ERRS)) := by
        rw [← process_input_fatal tab ACPID_MAX_ERRS tpmutefix fd reads s, hp]
        simp [Outcome.fatal]
      have hn := process_input_nerrs tab ACPID_MAX_ERRS tpmutefix fd reads s
      rw [hp] at hn
      simp only [Outcome.state] at hn
      rw [List.countP_cons] at h1 hge
      by_cases ht : counted reads = true
      · simp only [ht, ↓reduceIte] at h1 hge hn
        push_cast at hge
        obtain ⟨r, hread, htr⟩ := (counted_iff reads).1 ht
        apply ih s' hrest
        · have : ¬ s.nerrs + 1 ≥ ACPID_MAX_ERRS := fun h => hnf ⟨r, hread, Or.inr ⟨htr, h⟩⟩
          omega
        · rw [hn]; omega
      · simp only [ht, Bool.false_eq_true, ↓reduceIte, Nat.add_zero] at h1 hge hn
        exact ih s' hrest h1 (by rw [hn]; exact hge)

theorem run_inputs_nerrs_mono (tab : List evtab_entry) (ACPID_MAX_ERRS tpmutefix : Int) :
    ∀ (rs : List (Int × List Reading)) (s : State),
      s.nerrs ≤ (run_inputs tab ACPID_MAX_ERRS tpmutefix rs s).state.nerrs := by
  intro rs
  induction rs with
  | nil => intro s; simp [run_inputs, Outcome.state]
  | cons x rest ih =>
    intro s
    obtain ⟨fd, reads⟩ := x
    have hn := process_input_nerrs tab ACPID_MAX_ERRS tpmutefix fd reads s
    unfold run_inputs
    cases hp : process_input tab ACPID_MAX_ERRS tpmutefix fd reads s with
    | exited s' =>
      rw [hp] at hn
      simp only [Outcome.state] at hn ⊢
      split_ifs at hn <;> omega
    | interrupted s' =>
      rw [hp] at hn
      simp only [Outcome.state] at hn ⊢
      split_ifs at hn <;> omega
    | returned s' =>
      rw [hp] at hn
      simp only [Outcome.state] at hn
      have := ih s'
      simp only
      split_ifs at hn <;> omega

theorem run_inputs_transient_exits (tab : List evtab_entry) (ACPID_MAX_ERRS tpmutefix : Int) :
    ∀ (rs : List (Int × List Reading)) (s : State), (∀ x ∈ rs, counted x.2 = true) →
      s.nerrs < ACPID_MAX_ERRS → s.nerrs + rs.length ≥ ACPID_MAX_ERRS →
      run_inputs tab ACPID_MAX_ERRS tpmutefix rs s
        = .exited { s with nerrs := ACPID_MAX_ERRS } := by
  intro rs
  induction rs with
  | nil =>
    intro s _ hlt hge
    simp only [List.length_nil, Nat.cast_zero] at hge
    omega
  | cons x rest ih =>
    intro s hall hlt hge
    obtain ⟨fd, reads⟩ := x
    obtain ⟨r, hread, ht⟩ := (counted_iff reads).1 (hall (fd, reads) (List.mem_cons_self _ _))
    simp only [List.length_cons, Nat.cast_add, Nat.cast_one] at hge
    unfold run_inputs
    rw [process_input_transient _ _ _ _ _ _ _ hread ht]
    by_cases h1 : s.nerrs + 1 ≥ ACPID_MAX_ERRS
    · rw [if_pos h1]
      have : s.nerrs + 1 = ACPID_MAX_ERRS := by omega
      simp only [this]
    · rw [if_neg h1]
      simp only
      rw [ih _ (fun y hy => hall y (List.mem_cons_of_mem _ hy)) (by simp only; omega)
        (by simp only; omega)]

/-! ## Reader: classification of particular records -/

theorem event_string_up :
    event_string evtab_sorted ⟨EV_KEY, KEY_UP, 1⟩ = some "button/up UP 00000080 00000000" :=
  event_string_own_row ⟨EV_KEY, KEY_UP, 1, "button/up UP 00000080 00000000"⟩
    (by decide) (by decide)

theorem convert_event_up (tpmutefix : Int) (repeat_count : Nat) :
    convert_event evtab_sorted tpmutefix ⟨EV_KEY, KEY_UP, 1⟩ repeat_count
      = (some "button/up UP 00000080 00000000", repeat_count) := by
  unfold convert_event
  have hm : mute_string ⟨EV_KEY, KEY_UP, 1⟩ repeat_count = (none, repeat_count) := by
    unfold mute_string
    rw [if_neg (by decide)]
  rw [hm, event_string_up]
  split_ifs <;> rfl

theorem convert_event_absent (tpmutefix : Int) (event : input_event) (repeat_count : Nat)
    (htype : event.type < 2 ^ 16) (hcode : event.code < 2 ^ 16)
    (hlo : -2 ^ 31 ≤ event.value) (hhi : event.value < 2 ^ 31)
    (habs : ∀ e ∈ evtab, ¬ same_triple e event)
    (hmute : ¬ (tpmutefix ≠ 0 ∧ event = mute_event 0 ∧ repeat_count % 2 = 0)) :
    (convert_event evtab_sorted tpmutefix event repeat_count).1 = none := by
  have hes : event_string evtab_sorted event = none :=
    (event_string_none_of_absent event htype hcode hlo hhi habs).1
  unfold convert_event
  by_cases htp : tpmutefix ≠ 0
  · rw [if_pos htp]
    have hm : (mute_string event repeat_count).1 = none := by
      unfold mute_string
      by_cases hk : event.type = EV_KEY ∧ event.code = KEY_MUTE
      · rw [if_pos hk]
        by_cases h1 : event.value = 1
        · exfalso
          exact habs ⟨EV_KEY, KEY_MUTE, 1, "button/mute MUTE 00000080 00000000"⟩ (by decide)
            ⟨hk.1.symm, hk.2.symm, h1.symm⟩
        · rw [if_neg h1]
          by_cases h2 : event.value = 2
          · rw [if_pos h2]
          · rw [if_neg h2]
            by_cases h0 : event.value = 0
            · rw [if_pos h0]
              have hev : event = mute_event 0 := by
                cases event
                simp only [mute_event, input_event.mk.injEq]
                exact ⟨hk.1, hk.2, h0⟩
              have hodd : ¬ repeat_count % 2 = 0 := fun h => hmute ⟨htp, hev, h⟩
              rw [if_neg hodd]
            · rw [if_neg h0]
      · rw [if_neg hk]
    cases hms : mute_string event repeat_count with
    | mk a b =>
      rw [hms] at hm
      simp only at hm
      subst hm
      simp only [hes]
  · rw [if_neg htp]
    exact hes

/-! ## Reader: the keyboard flag -/

theorem find_connection_set_kybd_ne (fd fd0 : Int) (h : fd0 ≠ fd) :
    ∀ list : List connection,
      find_connection fd0 (set_kybd fd list) = find_connection fd0 list := by
  intro list
  induction list with
  | nil => rfl
  | cons c cs ih =>
    unfold set_kybd
    by_cases hc : c.fd = fd
    · rw [if_pos hc]
      have h1 : ¬ c.fd = fd0 := by rw [hc]; exact fun e => h e.symm
      simp [find_connection, List.find?_cons, h1]
    · rw [if_neg hc]
      unfold find_connection at ih ⊢
      simp only [List.find?_cons]
      rw [ih]

theorem find_connection_set_kybd_self (fd : Int) :
    ∀ list : List connection,
      find_connection fd (set_kybd fd list)
        = (find_connection fd list).map (fun c => { c with kybd := 1 }) := by
  intro list
  induction list with
  | nil => rfl
  | cons c cs ih =>
    unfold set_kybd
    by_cases hc : c.fd = fd
    · rw [if_pos hc]
      simp [find_connection, List.find?_cons, hc]
    · rw [if_neg hc]
      unfold find_connection at ih ⊢
      simp only [List.find?_cons, hc, decide_False]
      exact ih

theorem find_connection_delete_ne (fd fd0 : Int) (h : fd0 ≠ fd) :
    ∀ list : List connection,
      find_connection fd0 (delete_connection fd list) = find_connection fd0 list := by
  intro list
  induction list with
  | nil => rfl
  | cons c cs ih =>
    unfold find_connection delete_connection at ih ⊢
    by_cases hc : c.fd = fd
    · have h1 : ¬ fd = fd0 := fun e => h e.symm
      simp only [List.filter_cons, hc, ne_eq, not_true_eq_false, decide_False,
        Bool.false_eq_true, ↓reduceIte, List.find?_cons, h1]
      exact ih
    · simp only [List.filter_cons, ne_eq, hc, not_false_eq_true, decide_True, ↓reduceIte,
        List.find?_cons]
      rw [ih]

theorem find_connection_delete_self (fd : Int) (list : List connection) :
    find_connection fd (delete_connection fd list) = none := by
  unfold find_connection delete_connection
  rw [List.find?_eq_none]
  intro c hc
  have := (List.mem_filter.1 hc).2
  simpa using this

theorem process_input_connections (tab : List evtab_entry)
    (ACPID_MAX_ERRS tpmutefix fd : Int) (reads : List Reading) (s : State) :
    (process_input tab ACPID_MAX_ERRS tpmutefix fd reads s).state.connections
      = match TEMP_FAILURE_RETRY reads with
        | none => s.connections
        | some r =>
          if r.nbytes < 0 ∧ r.errno = ENODEV then delete_connection fd s.connections
          else if full_scan r then set_kybd fd s.connections
          else s.connections := by
  cases hread : TEMP_FAILURE_RETRY reads with
  | none =>
    rw [process_input_interrupted _ _ _ _ _ _ hread]
    rfl
  | some r =>
    dsimp only
    by_cases h0 : r.nbytes = 0
    · have hf : ¬ full_scan r := by
        unfold full_scan; rw [h0]; intro h; exact absurd h.1 (by decide)
      rw [process_input_closed _ _ _ _ _ _ _ hread h0, if_neg (by omega), if_neg hf]
      rfl
    · by_cases h1 : r.nbytes < 0
      · have hf : ¬ full_scan r := by
          unfold full_scan sizeof_event; intro h; omega
        by_cases h2 : r.errno = ENODEV
        · rw [process_input_enodev _ _ _ _ _ _ _ hread h1 h2, if_pos ⟨h1, h2⟩]
          rfl
        · have hnot : ¬ (r.nbytes < 0 ∧ r.errno = ENODEV) := fun h => h2 h.2
          rw [process_input_transient _ _ _ _ _ _ _ hread ⟨h1, h2⟩]
          by_cases hge : s.nerrs + 1 ≥ ACPID_MAX_ERRS
          · rw [if_pos hge, if_neg hnot, if_neg hf]; rfl
          · rw [if_neg hge, if_neg hnot, if_neg hf]; rfl
      · by_cases h3 : r.nbytes = sizeof_event
        · obtain ⟨s', hs', _, _, hconn, _⟩ :=
            process_input_full tab ACPID_MAX_ERRS tpmutefix fd reads r s hread h3
          rw [hs', if_neg (fun h => h1 h.1)]
          simp only [Outcome.state, hconn, full_scan, h3, true_and]
        · have hf : ¬ full_scan r := fun h => h3 h.1
          rw [process_input_short _ _ _ _ _ _ _ hread (by omega) h3,
            if_neg (fun h => h1 h.1), if_neg hf]
          rfl

theorem keyboard_kept_step (tab : List evtab_entry) (ACPID_MAX_ERRS tpmutefix fd fd0 : Int)
    (reads : List Reading) (s : State)
    (h : is_keyboard fd0 s.connections = true ∨ find_connection fd0 s.connections = none) :
    is_keyboard fd0
        (process_input tab ACPID_MAX_ERRS tpmutefix fd reads s).state.connections = true ∨
      find_connection fd0
        (process_input tab ACPID_MAX_ERRS tpmutefix fd reads s).state.connections = none := by
  rw [process_input_connections]
  cases hread : TEMP_FAILURE_RETRY reads with
  | none => exact h
  | some r =>
    dsimp only
    by_cases hfd : fd0 = fd
    · subst hfd
      split_ifs
      · exact Or.inr (find_connection_delete_self _ _)
      · unfold is_keyboard at h ⊢
        rw [find_connection_set_kybd_self]
        cases hf : find_connection fd0 s.connections with
        | none => exact Or.inr rfl
        | some c => exact Or.inl (by simp)
      · exact h
    · unfold is_keyboard at h ⊢
      split_ifs
      · rw [find_connection_delete_ne _ _ hfd]; exact h
      · rw [find_connection_set_kybd_ne _ _ hfd]; exact h
      · exact h

theorem keyboard_false_step (tab : List evtab_entry) (ACPID_MAX_ERRS tpmutefix fd fd0 : Int)
    (reads : List Reading) (s : State) (h : is_keyboard fd0 s.connections = false)
    (hno : ∀ r, TEMP_FAILURE_RETRY reads = some r → ¬ (fd = fd0 ∧ full_scan r)) :
    is_keyboard fd0 (process_input tab ACPID_MAX_ERRS tpmutefix fd reads s).state.connections
      = false := by
  rw [process_input_connections]
  cases hread : TEMP_FAILURE_RETRY reads with
  | none => exact h
  | some r =>
    dsimp only
    by_cases hfd : fd0 = fd
    · subst hfd
      have hns : ¬ full_scan r := fun hs => hno r hread ⟨rfl, hs⟩
      rw [if_neg hns]
      split_ifs
      · unfold is_keyboard
        rw [find_connection_delete_self]
      · exact h
    · unfold is_keyboard at h ⊢
      split_ifs
      · rw [find_connection_delete_ne _ _ hfd]; exact h
      · rw [find_connection_set_kybd_ne _ _ hfd]; exact h
      · exact h

theorem run_inputs_keyboard_kept (tab : List evtab_entry) (ACPID_MAX_ERRS tpmutefix fd0 : Int) :
    ∀ (rs : List (Int × List Reading)) (s : State),
      (is_keyboard fd0 s.connections = true ∨ find_connection fd0 s.connections = none) →
      (is_keyboard fd0 (run_inputs tab ACPID_MAX_ERRS tpmutefix rs s).state.connections = true ∨
        find_connection fd0 (run_inputs tab ACPID_MAX_ERRS tpmutefix rs s).state.connections
          = none) := by
  intro rs
  induction rs with
  | nil => intro s h; exact h
  | cons x rest ih =>
    intro s h
    obtain ⟨fd, reads⟩ := x
    have hstep := keyboard_kept_step tab ACPID_MAX_ERRS tpmutefix fd fd0 reads s h
    unfold run_inputs
    cases hp : process_input tab ACPID_MAX_ERRS tpmutefix fd reads s with
    | exited s' =>
      rw [hp] at hstep
      exact hstep
    | interrupted s' =>
      rw [hp] at hstep
      exact hstep
    | returned s' =>
      rw [hp] at hstep
      exact ih s' hstep

theorem run_inputs_keyboard_false (tab : List evtab_entry)
    (ACPID_MAX_ERRS tpmutefix fd0 : Int) :
    ∀ (rs : List (Int × List Reading)) (s : State), is_keyboard fd0 s.connections = false →
      (∀ x ∈ rs, ∀ r, TEMP_FAILURE_RETRY x.2 = some r → ¬ (x.1 = fd0 ∧ full_scan r)) →
      is_keyboard fd0 (run_inputs tab ACPID_MAX_ERRS tpmutefix rs s).state.connections
        = false := by
  intro rs
  induction rs with
  | nil => intro s h _; exact h
  | cons x rest ih =>
    intro s h hall
    obtain ⟨fd, reads⟩ := x
    have hstep := keyboard_false_step tab ACPID_MAX_ERRS tpmutefix fd fd0 reads s h
      (hall (fd, reads) (List.mem_cons_self _ _))
    unfold run_inputs
    cases hp : process_input tab ACPID_MAX_ERRS tpmutefix fd reads s with
    | exited s' =>
      rw [hp] at hstep
      exact hstep
    | interrupted s' =>
      rw [hp] at hstep
      exact hstep
    | returned s' =>
      rw [hp] at hstep
      exact ih s' hstep (fun y hy => hall y (List.mem_cons_of_mem _ hy))

theorem event_compare_3_eq_zero_type (l r : evtab_entry) (hl : l.type < 2 ^ 32)
    (hr : r.type < 2 ^ 32) (h : event_compare_3 l r = 0) : l.type = r.type := by
  have ht := to_int_unsigned_sub_eq_zero l.type r.type hl hr
  unfold event_compare_3 at h
  simp only at h
  split_ifs at h with h1
  · exact absurd h h1
  · exact ht.1 (not_not.1 h1)
  · exact ht.1 (not_not.1 h1)

theorem convert_event_scan (tpmutefix : Int) (event : input_event) (repeat_count : Nat)
    (h : event.type = EV_MSC) :
    convert_event evtab_sorted tpmutefix event repeat_count = (none, repeat_count) := by
  have hes : event_string evtab_sorted event = none := by
    cases hres : event_string evtab_sorted event with
    | none => rfl
    | some str =>
      exfalso
      unfold event_string at hres
      simp only at hres
      split at hres
      · exact absurd hres (by simp)
      · rename_i p hb
        obtain ⟨hmem, hz⟩ := bsearch_sound _ _ _ _ hb
        have hp := evtab_sorted_small p hmem
        have hty := event_compare_3_eq_zero_type _ p (by simp only [h]; decide)
          (by unfold small at hp; omega) hz
        simp only [h] at hty
        have : ∀ e ∈ evtab, e.type ≠ EV_MSC := by decide
        exact this p ((mem_evtab_sorted p).1 hmem) hty.symm
  have hm : mute_string event repeat_count = (none, repeat_count) := by
    unfold mute_string
    rw [if_neg (fun hk => by rw [h] at hk; exact absurd hk.1 (by decide))]
  unfold convert_event
  rw [hm, hes]
  split_ifs <;> rfl

/-! ## Device admission: facts -/

theorem has_event_types_total (sizeof_long : Nat) (tab : List evtab_entry) (dev : Device)
    (row0 : List Nat) (hrow0 : row0.length = NBITS sizeof_long KEY_MAX) :
    ∀ (types : List Nat) (bit : List (List Nat)), (∀ t ∈ types, t < EV_MAX) →
      bit.length = EV_MAX → (∀ row ∈ bit, row.length = NBITS sizeof_long KEY_MAX) →
      bit[0]? = some row0 →
      ∃ r, has_event_types sizeof_long tab dev types bit = some r ∧ (r = 0 ∨ r = 1) := by
  intro types
  induction types with
  | nil =>
    intro bit _ _ _ _
    exact ⟨0, rfl, Or.inl rfl⟩
  | cons t ts ih =>
    intro bit htypes hlen hrows h0
    have htlt : t < EV_MAX := htypes t (List.mem_cons_self _ _)
    have hts : ∀ x ∈ ts, x < EV_MAX := fun x hx => htypes x (List.mem_cons_of_mem _ hx)
    obtain ⟨b, hb, _⟩ := test_bit_isSome sizeof_long t row0
      (by rw [hrow0]; exact LONG_lt_NBITS sizeof_long t
            (by unfold EV_MAX at htlt; unfold KEY_MAX; omega))
    unfold has_event_types
    generalize hcodes : List.range KEY_MAX = codes
    rw [h0]
    simp only
    rw [hb]
    simp only
    by_cases hbz : b ≠ 0
    · rw [if_pos hbz]
      by_cases hsyn : t = EV_SYN
      · rw [if_pos hsyn]
        exact ih bit hts hlen hrows h0
      · rw [if_neg hsyn]
        have hrowt : t < bit.length := by rw [hlen]; exact htlt
        rw [List.getElem?_eq_getElem hrowt]
        simp only
        have hlenr : (ioctl_EVIOCGBIT dev t bit[t]).length = NBITS sizeof_long KEY_MAX := by
          rw [ioctl_EVIOCGBIT_length]; exact hrows _ (List.getElem_mem _)
        obtain ⟨r, hr, _⟩ := has_event_codes_spec sizeof_long tab t
          (ioctl_EVIOCGBIT dev t bit[t]) hlenr (List.range KEY_MAX)
          (fun c hc => List.mem_range.1 hc)
        rw [hcodes] at hr
        rw [hr]
        cases r with
        | true => exact ⟨1, rfl, Or.inr rfl⟩
        | false =>
          simp only
          apply ih _ hts
          · rw [List.length_set]; exact hlen
          · intro row hrow
            rcases List.mem_or_eq_of_mem_set hrow with hmem | heq
            · exact hrows row hmem
            · rw [heq]; exact hlenr
          · rw [List.getElem?_set_ne (by
              intro h; apply hsyn; unfold EV_SYN; omega)]
            exact h0
    · rw [if_neg hbz]
      exact ih bit hts hlen hrows h0

theorem has_event_total (sizeof_long : Nat) (tab : List evtab_entry) (dev : Device) :
    ∃ r, has_event sizeof_long tab dev = some r ∧ (r = 0 ∨ r = 1) := by
  rw [has_event_eq]
  have hlen0 : (ioctl_EVIOCGBIT dev 0 (List.replicate (NBITS sizeof_long KEY_MAX) 0)).length
      = NBITS sizeof_long KEY_MAX := by
    rw [ioctl_EVIOCGBIT_length, List.length_replicate]
  apply has_event_types_total sizeof_long tab dev _ hlen0 (List.range EV_MAX) _
    (fun x hx => List.mem_range.1 hx)
  · rw [List.length_set, List.length_replicate]
  · intro row hrow
    rcases List.mem_or_eq_of_mem_set hrow with hmem | heq
    · rw [(List.mem_replicate.1 hmem).2, List.length_replicate]
    · rw [heq]; exact hlen0
  · exact has_event_bit0 sizeof_long dev

theorem open_inputfile_admissible (sizeof_long : Nat) (tab : List evtab_entry) (env : Files)
    (filename : String) (list : List connection)
    (h : admissible sizeof_long tab env filename) :
    open_inputfile sizeof_long tab env filename list
      = some (0, list ++ [new_connection env filename]) := by
  obtain ⟨h1, ⟨r, hr, hr0⟩, h3⟩ := h
  unfold new_connection at h3
  unfold open_inputfile add_connection new_connection
  simp only [h1, ↓reduceIte, hr, hr0, h3, Bool.false_eq_true]

theorem open_inputfile_not_admissible (sizeof_long : Nat) (tab : List evtab_entry)
    (env : Files) (filename : String) (list : List connection)
    (h : ¬ admissible sizeof_long tab env filename) :
    open_inputfile sizeof_long tab env filename list = some (-1, list) := by
  unfold open_inputfile add_connection
  by_cases h1 : env.open_file filename ≥ 0
  · obtain ⟨r, hr, _⟩ := has_event_total sizeof_long tab (env.device (env.open_file filename))
    simp only [h1, ↓reduceIte, hr]
    by_cases hr0 : r = 0
    · simp only [hr0, ↓reduceIte]
    · simp only [hr0, ↓reduceIte]
      cases h3 : env.refuses ⟨env.open_file filename,
          if env.malloc_null filename = true then none else some filename, 0⟩ with
      | true => simp
      | false => exact absurd ⟨h1, ⟨r, hr, hr0⟩, h3⟩ h
  · simp only [h1, ↓reduceIte]

theorem open_inputfile_zero_iff (sizeof_long : Nat) (tab : List evtab_entry) (env : Files)
    (filename : String) (list : List connection) :
    (∃ list', open_inputfile sizeof_long tab env filename list = some (0, list')) ↔
      admissible sizeof_long tab env filename := by
  constructor
  · rintro ⟨list', h⟩
    by_contra hna
    rw [open_inputfile_not_admissible _ _ _ _ _ hna] at h
    simp only [Option.some.injEq, Prod.mk.injEq] at h
    exact absurd h.1 (by decide)
  · intro h
    exact ⟨_, open_inputfile_admissible _ _ _ _ _ h⟩

theorem find_connection_name_append (p : String) (l x : List connection)
    (h : (find_connection_name p l).isSome = true) :
    (find_connection_name p (l ++ x)).isSome = true := by
  unfold find_connection_name at h ⊢
  rw [List.find?_append]
  cases hf : List.find? (fun c => decide (c.pathname = some p)) l with
  | none => rw [hf] at h; simp at h
  | some c => simp

theorem find_connection_name_of_mem (env : Files) (p : String) (l : List connection)
    (hm : env.malloc_null p = false) (h : new_connection env p ∈ l) :
    (find_connection_name p l).isSome = true := by
  unfold find_connection_name
  rw [List.find?_isSome]
  refine ⟨new_connection env p, h, ?_⟩
  simp [new_connection, hm]

theorem open_input_files_spec (sizeof_long : Nat) (tab : List evtab_entry) (env : Files) :
    ∀ (paths : List String) (success : Int) (list : List connection),
      ∃ success' list', open_input_files sizeof_long tab env paths success list
          = some (success', list') ∧
        (∃ added, list' = list ++ added) ∧
        (∀ p ∈ paths, (find_connection_name p list').isSome = true ∨
          new_connection env p ∈ list' ∨ ¬ admissible sizeof_long tab env p) ∧
        (success' = 0 ↔ success = 0 ∧ ∀ p ∈ paths, find_connection_name p list = none ∧
          ¬ admissible sizeof_long tab env p) := by
  intro paths
  induction paths with
  | nil =>
    intro success list
    exact ⟨success, list, rfl, ⟨[], by simp⟩, by simp, by simp⟩
  | cons p ps ih =>
    intro success list
    unfold open_input_files
    cases hf : find_connection_name p list with
    | some c =>
      simp only
      obtain ⟨s', l', hrun, ⟨added, hadd⟩, htried, hs⟩ := ih 1 list
      refine ⟨s', l', hrun, ⟨added, hadd⟩, ?_, ?_⟩
      · intro q hq
        rcases List.mem_cons.1 hq with rfl | hq'
        · left
          rw [hadd]
          exact find_connection_name_append _ _ _ (by rw [hf]; rfl)
        · exact htried q hq'
      · constructor
        · intro h0
          exact absurd (hs.1 h0).1 (by decide)
        · rintro ⟨_, hall⟩
          have := (hall p (List.mem_cons_self _ _)).1
          rw [hf] at this
          exact absurd this (by simp)
    | none =>
      simp only
      by_cases hadm : admissible sizeof_long tab env p
      · rw [open_inputfile_admissible _ _ _ _ _ hadm]
        simp only [↓reduceIte]
        obtain ⟨s', l', hrun, ⟨added, hadd⟩, htried, hs⟩ :=
          ih 1 (list ++ [new_connection env p])
        refine ⟨s', l', hrun, ⟨[new_connection env p] ++ added, ?_⟩, ?_, ?_⟩
        · rw [hadd, List.append_assoc]
        · intro q hq
          rcases List.mem_cons.1 hq with rfl | hq'
          · right; left
            rw [hadd]
            simp
          · exact htried q hq'
        · constructor
          · intro h0
            exact absurd (hs.1 h0).1 (by decide)
          · rintro ⟨_, hall⟩
            exact absurd hadm (hall p (List.mem_cons_self _ _)).2
      · rw [open_inputfile_not_admissible _ _ _ _ _ hadm]
        simp only [show ¬ ((-1 : Int) = 0) by decide, ↓reduceIte]
        obtain ⟨s', l', hrun, ⟨added, hadd⟩, htried, hs⟩ := ih success list
        refine ⟨s', l', hrun, ⟨added, hadd⟩, ?_, ?_⟩
        · intro q hq
          rcases List.mem_cons.1 hq with rfl | hq'
          · exact Or.inr (Or.inr hadm)
          · exact htried q hq'
        · rw [hs]
          constructor
          · rintro ⟨h0, hall⟩
            refine ⟨h0, fun q hq => ?_⟩
            rcases List.mem_cons.1 hq with rfl | hq'
            · exact ⟨hf, hadm⟩
            · exact hall q hq'
          · rintro ⟨h0, hall⟩
            exact ⟨h0, fun q hq => hall q (List.mem_cons_of_mem _ hq)⟩

theorem open_input_files_unchanged (sizeof_long : Nat) (tab : List evtab_entry) (env : Files)
    (list : List connection) :
    ∀ (paths : List String) (success : Int),
      (∀ p ∈ paths, (find_connection_name p list).isSome = true ∨
        ¬ admissible sizeof_long tab env p) →
      ∃ success', open_input_files sizeof_long tab env paths success list
        = some (success', list) := by
  intro paths
  induction paths with
  | nil => intro success _; exact ⟨success, rfl⟩
  | cons p ps ih =>
    intro success h
    have hps : ∀ q ∈ ps, (find_connection_name q list).isSome = true ∨
        ¬ admissible sizeof_long tab env q := fun q hq => h q (List.mem_cons_of_mem _ hq)
    unfold open_input_files
    cases hf : find_connection_name p list with
    | some c =>
      simp only
      exact ih 1 hps
    | none =>
      simp only
      rcases h p (List.mem_cons_self _ _) with hfound | hna
      · rw [hf] at hfound; simp at hfound
      · rw [open_inputfile_not_admissible _ _ _ _ _ hna]
        simp only
        exact ih _ hps

theorem qsort_evtab_sorted : qsort event_compare_3 evtab_sorted = evtab_sorted := by
  decide

theorem OFF_lt_BITS_PER_LONG (sizeof_long x : Nat) (h : 0 < sizeof_long) :
    OFF sizeof_long x < BITS_PER_LONG sizeof_long := by
  unfold OFF
  exact Nat.mod_lt _ (by unfold BITS_PER_LONG; omega)

theorem EV_MAX_le_KEY_MAX : EV_MAX ≤ KEY_MAX := by decide

/-! ## Claims -/

/-- C1 (fails on the code): the rows for `KEY_SCREENLOCK` and `KEY_COFFEE` carry
the same key `(EV_KEY, 152, 1)`.  On the sorted table `event_string` answers
the record of the `KEY_COFFEE` row with the string of the `KEY_SCREENLOCK`
row; and whatever the order of the table, some row of `evtab` does not get
its own string back. -/
theorem event_string_coffee_row :
    (⟨EV_KEY, KEY_COFFEE, 1, "button/coffee CFEE 00000080 00000000"⟩ : evtab_entry) ∈ evtab ∧
    event_string evtab_sorted
        (record_of ⟨EV_KEY, KEY_COFFEE, 1, "button/coffee CFEE 00000080 00000000"⟩)
      = some "button/screenlock SCRNLCK 00000080 00000000" ∧
    (∀ tab : List evtab_entry, ∃ e ∈ evtab, event_string tab (record_of e) ≠ some e.str) := by
  refine ⟨by decide, ?_, ?_⟩
  · unfold event_string bsearch
    simp only
    rw [bsearch_loop_step_lt _ _ _ _ _ _ (by decide)
        ⟨EV_KEY, KEY_SWITCHVIDEOMODE, 1, "video/switchmode VMOD 00000080 00000000"⟩
        (by decide) (by decide),
      bsearch_loop_step_lt _ _ _ _ _ _ (by decide)
        ⟨EV_KEY, KEY_BACK, 1, "button/back BACK 00000080 00000000"⟩ (by decide) (by decide),
      bsearch_loop_step_gt _ _ _ _ _ _ (by decide)
        ⟨EV_KEY, KEY_VOLUMEUP, 1, "button/volumeup VOLUP 00000080 00000000"⟩
        (by decide) (by decide),
      bsearch_loop_step_gt _ _ _ _ _ _ (by decide)
        ⟨EV_KEY, KEY_SLEEP, 1, "button/sleep SBTN 00000080 00000000"⟩ (by decide) (by decide),
      bsearch_loop_step_eq _ _ _ _ _ _ (by decide)
        ⟨EV_KEY, KEY_SCREENLOCK, 1, "button/screenlock SCRNLCK 00000080 00000000"⟩
        (by decide) (by decide)]
  · intro tab
    by_cases h : event_string tab ⟨EV_KEY, KEY_COFFEE, 1⟩
        = some "button/coffee CFEE 00000080 00000000"
    · refine ⟨⟨EV_KEY, KEY_SCREENLOCK, 1, "button/screenlock SCRNLCK 00000080 00000000"⟩,
        by decide, ?_⟩
      have hrec : record_of ⟨EV_KEY, KEY_SCREENLOCK, 1,
          "button/screenlock SCRNLCK 00000080 00000000"⟩ = ⟨EV_KEY, KEY_COFFEE, 1⟩ := rfl
      rw [hrec, h]
      decide
    · exact ⟨⟨EV_KEY, KEY_COFFEE, 1, "button/coffee CFEE 00000080 00000000"⟩, by decide, h⟩

/-- C2: for a record whose type and code are unsigned 16-bit values and whose
value is a signed 32-bit integer, if no row of `evtab` has that exact
`(type, code, value)` then `event_string` returns NULL on the sorted table;
and a zero result of `event_compare_3` against a row, wrapped subtraction
included, means the three fields are equal. -/
theorem event_string_absent (ev : input_event) (htype : ev.type < 2 ^ 16)
    (hcode : ev.code < 2 ^ 16) (hlo : -2 ^ 31 ≤ ev.value) (hhi : ev.value < 2 ^ 31)
    (habs : ∀ e ∈ evtab, ¬ same_triple e ev) :
    event_string evtab_sorted ev = none ∧
    ∀ e ∈ evtab, event_compare_3 (search_key ev) e = 0 → same_triple e ev :=
  event_string_none_of_absent ev htype hcode hlo hhi habs

theorem event_string_absent_witness :
    event_string evtab_sorted ⟨EV_KEY, KEY_MUTE, -2147483648⟩ = none ∧
    ∀ e ∈ evtab, event_compare_3 (search_key ⟨EV_KEY, KEY_MUTE, -2147483648⟩) e = 0 →
      same_triple e ⟨EV_KEY, KEY_MUTE, -2147483648⟩ :=
  event_string_absent ⟨EV_KEY, KEY_MUTE, -2147483648⟩ (by decide) (by decide) (by decide)
    (by decide) (by decide)

/-- C3 (fails on the code): two distinct rows of `evtab`, the one for
`KEY_SCREENLOCK` and the one for `KEY_COFFEE`, share the same
`(type, code, value)`, since the header defines `KEY_SCREENLOCK` as `KEY_COFFEE`. -/
theorem evtab_duplicate_triple :
    ∃ a ∈ evtab, ∃ b ∈ evtab, a ≠ b ∧ a.type = b.type ∧ a.code = b.code ∧ a.value = b.value :=
  ⟨⟨EV_KEY, KEY_SCREENLOCK, 1, "button/screenlock SCRNLCK 00000080 00000000"⟩, by decide,
    ⟨EV_KEY, KEY_COFFEE, 1, "button/coffee CFEE 00000080 00000000"⟩, by decide,
    by decide, rfl, rfl, rfl⟩

/-- C4: after the sort of `open_input`, the table is a permutation of the
authored rows, every adjacent pair is in lexicographic `(type, code, value)`
order, and on every pair of rows of the table the sign of `event_compare_3`
is the sign of the lexicographic comparison. -/
theorem evtab_sorted_spec :
    evtab_sorted.Perm evtab ∧
    (∀ (i : Nat) (h : i + 1 < evtab_sorted.length),
      lex_le evtab_sorted[i] evtab_sorted[i + 1]) ∧
    (∀ a ∈ evtab, ∀ b ∈ evtab, Int.sign (event_compare_3 a b) = lex_sign a b) := by
  refine ⟨evtab_sorted_perm, ?_, ?_⟩
  · intro i h
    exact lex_le_getElem evtab_sorted evtab_sorted_pairwise i (i + 1) (by omega) h (by omega)
  · intro a ha b hb
    exact event_compare_3_sign a b (evtab_small a ha) (evtab_small b hb)

theorem evtab_sorted_spec_witness :
    Int.sign (event_compare_3 ⟨EV_SW, SW_LID, 1, "button/lid LID close"⟩
        ⟨EV_KEY, KEY_POWER, 1, "button/power PBTN 00000080 00000000"⟩)
      = lex_sign ⟨EV_SW, SW_LID, 1, "button/lid LID close"⟩
        ⟨EV_KEY, KEY_POWER, 1, "button/power PBTN 00000080 00000000"⟩ :=
  evtab_sorted_spec.2.2 _ (by decide) _ (by decide)

/-- C5: on the sorted table, for every type below `EV_MAX` and code below
`KEY_MAX`, `need_event(type, code)` is non-zero if and only if some row of
`evtab` has that type and that code, whatever its value. -/
theorem need_event_iff (type code : Nat) (ht : type < EV_MAX) (hc : code < KEY_MAX) :
    need_event evtab_sorted (type : Int) (code : Int) ≠ 0 ↔
      ∃ e ∈ evtab, e.type = type ∧ e.code = code :=
  need_event_sorted_iff type code ht hc

theorem need_event_iff_witness :
    need_event evtab_sorted (EV_KEY : Nat) (KEY_VOLUMEDOWN : Nat) ≠ 0 ∧
    need_event evtab_sorted (EV_SW : Nat) (SW_LID : Nat) ≠ 0 ∧
    ¬ need_event evtab_sorted (EV_REL : Nat) (KEY_MUTE : Nat) ≠ 0 :=
  ⟨(need_event_iff EV_KEY KEY_VOLUMEDOWN (by decide) (by decide)).2
      ⟨⟨EV_KEY, KEY_VOLUMEDOWN, 2, "button/volumedown VOLDN 00000080 00000000"⟩,
        by decide, rfl, rfl⟩,
    (need_event_iff EV_SW SW_LID (by decide) (by decide)).2
      ⟨⟨EV_SW, SW_LID, 0, "button/lid LID open"⟩, by decide, rfl, rfl⟩,
    fun h => absurd ((need_event_iff EV_REL KEY_MUTE (by decide) (by decide)).1 h) (by decide)⟩

/-- C6: with the device given by a root type bitmap and one code bitmap per
type, for every width of `long`, `has_event` returns 0 when every bitmap is
empty (a failed query counts as empty), and returns 1 for every device whose
root bitmap has the type's bit set and whose code bitmap for that type has
the code's bit set, for the type and code of some row of `evtab`; every row of
`evtab` has a type other than `EV_SYN` and below `EV_MAX`, and a code below
`KEY_MAX`. -/
theorem has_event_spec (sizeof_long : Nat) (dev : Device) :
    ((∀ type n, dev_bit sizeof_long dev type n = false) →
      has_event sizeof_long evtab_sorted dev = some 0) ∧
    ((∃ e ∈ evtab, dev_bit sizeof_long dev 0 e.type = true ∧
        dev_bit sizeof_long dev e.type e.code = true) →
      has_event sizeof_long evtab_sorted dev = some 1) ∧
    (∀ e ∈ evtab, e.type ≠ EV_SYN ∧ e.type < EV_MAX ∧ e.code < KEY_MAX) := by
  refine ⟨?_, ?_, evtab_scanned⟩
  · intro h
    exact has_event_of_empty sizeof_long evtab_sorted dev (fun n _ => h 0 n)
  · rintro ⟨e, he, hroot, hcode⟩
    obtain ⟨h1, h2, h3⟩ := evtab_scanned e he
    exact has_event_of_hit sizeof_long evtab_sorted dev e.type e.code h1 h2 h3 hroot hcode
      ((need_event_sorted_iff e.type e.code h2 h3).2 ⟨e, he, rfl, rfl⟩)

theorem has_event_spec_witness :
    has_event 8 evtab_sorted ⟨fun _ => none⟩ = some 0 ∧
    has_event 8 evtab_sorted ⟨fun _ => some [0, 0]⟩ = some 0 ∧
    has_event 8 evtab_sorted
      ⟨fun t => if t = 0 then some [2] else if t = 1 then some [0, 2 ^ 49] else none⟩
      = some 1 :=
  ⟨(has_event_spec 8 ⟨fun _ => none⟩).1 (fun _ _ => rfl),
    (has_event_spec 8 ⟨fun _ => some [0, 0]⟩).1 (fun type n => by
      simp only [dev_bit, test_bit]
      split
      · rfl
      · rename_i b hb
        split at hb
        · exact absurd hb (by simp)
        · rename_i w hw
          have hw0 : w = 0 := by
            have := List.getElem?_mem hw
            simpa using this
          subst hw0
          simp at hb
          simp [← hb]),
    (has_event_spec 8
      ⟨fun t => if t = 0 then some [2] else if t = 1 then some [0, 2 ^ 49] else none⟩).2.1
      ⟨⟨EV_KEY, KEY_MUTE, 1, "button/mute MUTE 00000080 00000000"⟩, by decide, by decide,
        by decide⟩⟩

/-- C7: for every number `N` of repeats and every prior value of
`repeat_count`, on the mute-key sequence press (1), `N` repeats (2), release
(0) the press call returns the "key pressed" string, the `N` repeat calls all
return NULL, and the release call returns the "key released" string if `N`
is odd and NULL if `N` is even. -/
theorem mute_parity (N repeat_count : Nat) :
    (mute_run (mute_event 1 :: (List.replicate N (mute_event 2) ++ [mute_event 0]))
        repeat_count).1
      = some "button/mute MUTE (key pressed)" ::
          (List.replicate N none ++
            [if N % 2 = 1 then some "button/mute MUTE (key released)" else none]) := by
  have hpress : mute_string (mute_event 1) repeat_count
      = (some "button/mute MUTE (key pressed)", 1) := by
    simp [mute_string, mute_event]
  rw [mute_run]
  simp only [hpress]
  rw [mute_run_repeats [mute_event 0] N 1 (by omega)]
  simp only [List.cons.injEq, true_and]
  congr 1
  simp only [mute_run, mute_string, mute_event]
  by_cases hodd : N % 2 = 1
  · have : (1 + N) % 18446744073709551616 % 2 = 0 := by omega
    simp [this, hodd]
  · have : ¬ (1 + N) % 18446744073709551616 % 2 = 0 := by omega
    simp [this, hodd]

/-- C8 (fails on the code): after a mute press (from the initial
`repeat_count` 0) the release that follows directly returns NULL, not the
"key released" string. -/
theorem mute_bare_release_null :
    (mute_string (mute_event 0) (mute_string (mute_event 1) 0).2).1 = none ∧
    (mute_string (mute_event 0) (mute_string (mute_event 1) 0).2).1
      ≠ some "button/mute MUTE (key released)" := by
  constructor <;> simp [mute_string, mute_event]

/-- C8 (amended): whatever the prior `repeat_count`, a mute press returns the
"key pressed" string and sets `repeat_count` to 1, and a release that follows
directly, with no repeat in between, returns NULL: no "released" emission. -/
theorem mute_bare_press_release (repeat_count : Nat) :
    mute_string (mute_event 1) repeat_count = (some "button/mute MUTE (key pressed)", 1) ∧
    (mute_string (mute_event 0) (mute_string (mute_event 1) repeat_count).2).1 = none := by
  constructor <;> simp [mute_string, mute_event]

/-- C9 (fails on the code): with `tpmutefix` 0 the mute filter is not
consulted: the mute press record `(EV_KEY, KEY_MUTE, 1)` is classified as the
catalog string "button/mute MUTE 00000080 00000000", and that string is what
`process_input` passes to the handler. -/
theorem mute_press_without_tpmutefix :
    convert_event evtab_sorted 0 (mute_event 1) 0
      = (some "button/mute MUTE 00000080 00000000", 0) ∧
    process_input evtab_sorted 5 0 3 [⟨sizeof_event, 0, mute_event 1, false⟩] ⟨0, 0, [], []⟩
      = .returned ⟨0, 0, [], ["button/mute MUTE 00000080 00000000"]⟩ := by
  have hc : convert_event evtab_sorted 0 (mute_event 1) 0
      = (some "button/mute MUTE 00000080 00000000", 0) := by
    unfold convert_event
    rw [if_neg (by decide), event_string_mute_press]
  refine ⟨hc, ?_⟩
  have hread : TEMP_FAILURE_RETRY [⟨sizeof_event, 0, mute_event 1, false⟩]
      = some ⟨sizeof_event, 0, mute_event 1, false⟩ := rfl
  unfold process_input
  rw [hread]
  simp only [hc]
  rfl

/-- C9 (amended): the mute filter is consulted only when `tpmutefix` is
non-zero.  Then, for every record, a name the filter returns is the
classification, ahead of the catalog: the mute press record is classified as
"button/mute MUTE (key pressed)", and for a full mute press record (the
result `r` of the read after the retries of `TEMP_FAILURE_RETRY`)
`process_input` forwards nothing (locked) or that string, with " K" appended
on a keyboard connection.  When `tpmutefix` is 0 the classification is the
catalog lookup alone. -/
theorem mute_filter_gate (tab : List evtab_entry) (ACPID_MAX_ERRS tpmutefix fd : Int)
    (reads : List Reading) (r : Reading) (s : State) (event : input_event)
    (repeat_count : Nat) :
    (tpmutefix ≠ 0 → ∀ str, (mute_string event repeat_count).1 = some str →
      convert_event tab tpmutefix event repeat_count
        = (some str, (mute_string event repeat_count).2)) ∧
    (tpmutefix ≠ 0 →
      convert_event tab tpmutefix (mute_event 1) repeat_count
        = (some "button/mute MUTE (key pressed)", 1)) ∧
    (tpmutefix = 0 →
      convert_event tab tpmutefix event repeat_count = (event_string tab event, repeat_count)) ∧
    (tpmutefix ≠ 0 → TEMP_FAILURE_RETRY reads = some r → r.nbytes = sizeof_event →
      r.event = mute_event 1 →
      ∃ s', process_input tab ACPID_MAX_ERRS tpmutefix fd reads s = .returned s' ∧
        s'.repeat_count = 1 ∧
        (s'.handled = s.handled ∨
          s'.handled = s.handled ++ ["button/mute MUTE (key pressed)"] ∨
          s'.handled = s.handled ++ ["button/mute MUTE (key pressed)" ++ " K"])) := by
  have hpress : ∀ rc, tpmutefix ≠ 0 → convert_event tab tpmutefix (mute_event 1) rc
      = (some "button/mute MUTE (key pressed)", 1) := by
    intro rc htp
    unfold convert_event
    rw [if_pos htp]
    simp [mute_string, mute_event]
  refine ⟨?_, hpress repeat_count, ?_, ?_⟩
  · intro htp str hstr
    unfold convert_event
    rw [if_pos htp]
    cases hm : mute_string event repeat_count with
    | mk a b =>
      rw [hm] at hstr
      simp only at hstr
      subst hstr
      rfl
  · intro htp
    unfold convert_event
    rw [if_neg (by simpa using htp)]
  · intro htp hread hfull hev
    have hconv := hpress s.repeat_count htp
    rw [← hev] at hconv
    obtain ⟨s', hs', hrc, hh, _⟩ := process_input_full_some tab ACPID_MAX_ERRS tpmutefix fd
      reads r s hread hfull (by rw [hev]; decide) "button/mute MUTE (key pressed)"
      (by rw [hconv])
    refine ⟨s', hs', ?_, hh⟩
    rw [hrc, hconv]

theorem mute_filter_gate_witness :
    convert_event evtab_sorted 1 (mute_event 1) 0
        = (some "button/mute MUTE (key pressed)", 1) ∧
    convert_event evtab_sorted 0 (mute_event 1) 0
        = (event_string evtab_sorted (mute_event 1), 0) ∧
    ∃ s', process_input evtab_sorted 5 1 3
        [⟨-1, EINTR, ⟨0, 0, 0⟩, false⟩, ⟨sizeof_event, 0, mute_event 1, false⟩]
        ⟨0, 0, [], []⟩ = .returned s' ∧
      s'.repeat_count = 1 ∧
      (s'.handled = [] ∨ s'.handled = [] ++ ["button/mute MUTE (key pressed)"] ∨
        s'.handled = [] ++ ["button/mute MUTE (key pressed)" ++ " K"]) :=
  ⟨(mute_filter_gate evtab_sorted 5 1 3 [⟨sizeof_event, 0, mute_event 1, false⟩]
      ⟨sizeof_event, 0, mute_event 1, false⟩ ⟨0, 0, [], []⟩ (mute_event 1) 0).2.1 (by decide),
    (mute_filter_gate evtab_sorted 5 0 3 [⟨sizeof_event, 0, mute_event 1, false⟩]
      ⟨sizeof_event, 0, mute_event 1, false⟩ ⟨0, 0, [], []⟩ (mute_event 1) 0).2.2.1 rfl,
    (mute_filter_gate evtab_sorted 5 1 3
      [⟨-1, EINTR, ⟨0, 0, 0⟩, false⟩, ⟨sizeof_event, 0, mute_event 1, false⟩]
      ⟨sizeof_event, 0, mute_event 1, false⟩ ⟨0, 0, [], []⟩ (mute_event 1) 0).2.2.2
      (by decide) rfl rfl rfl⟩

/-- C10: with `tpmutefix` set, for every full mute-key record with value 2,
and for every full mute-key release (value 0) read while `repeat_count` is
odd, the classification of `process_input` is NULL, although `event_string`
is consulted after `mute_string`; the call returns and nothing is passed to
the handler.  The record is the result `r` of the read after the retries of
`TEMP_FAILURE_RETRY`. -/
theorem mute_suppress (ACPID_MAX_ERRS tpmutefix fd : Int) (reads : List Reading) (r : Reading)
    (s : State) (htp : tpmutefix ≠ 0) (hread : TEMP_FAILURE_RETRY reads = some r)
    (hfull : r.nbytes = sizeof_event)
    (hev : r.event = mute_event 2 ∨ (r.event = mute_event 0 ∧ s.repeat_count % 2 = 1)) :
    (convert_event evtab_sorted tpmutefix r.event s.repeat_count).1 = none ∧
    ∃ s', process_input evtab_sorted ACPID_MAX_ERRS tpmutefix fd reads s = .returned s' ∧
      s'.handled = s.handled := by
  have hnone : (convert_event evtab_sorted tpmutefix r.event s.repeat_count).1 = none := by
    unfold convert_event
    rw [if_pos htp]
    rcases hev with hev | ⟨hev, hodd⟩
    · rw [hev]
      have hm : mute_string (mute_event 2) s.repeat_count
          = (none, (s.repeat_count + 1) % 2 ^ 64) := by
        simp [mute_string, mute_event]
      rw [hm]
      exact event_string_mute_repeat
    · rw [hev]
      have hm : mute_string (mute_event 0) s.repeat_count = (none, s.repeat_count) := by
        have hne : ¬ s.repeat_count % 2 = 0 := by omega
        simp [mute_string, mute_event, hne]
      rw [hm]
      exact event_string_mute_release
  have hscan : ¬ (r.event.type = EV_MSC ∧ r.event.code = MSC_SCAN) := by
    rcases hev with hev | ⟨hev, _⟩ <;> rw [hev] <;> decide
  refine ⟨hnone, _, process_input_full_none evtab_sorted ACPID_MAX_ERRS tpmutefix fd reads r s
    hread hfull hscan hnone, rfl⟩

theorem mute_suppress_witness :
    (convert_event evtab_sorted 1 (mute_event 0) 1).1 = none ∧
    ∃ s', process_input evtab_sorted 5 1 3 [⟨sizeof_event, 0, mute_event 0, false⟩]
        ⟨0, 1, [], []⟩ = .returned s' ∧ s'.handled = [] :=
  mute_suppress 5 1 3 [⟨sizeof_event, 0, mute_event 0, false⟩]
    ⟨sizeof_event, 0, mute_event 0, false⟩ ⟨0, 1, [], []⟩ (by decide) rfl rfl
    (Or.inr ⟨rfl, by decide⟩)

/-- C11 (fails on the code): with `ACPID_MAX_ERRS = 5` and the counter at 0,
four transient read errors in a row leave the process running, and the fifth
already ends it with `exit`: the threshold-th error is fatal, not the one
after it. -/
theorem fifth_error_is_fatal :
    run_inputs evtab_sorted 5 0 (List.replicate 4 (3, [⟨-1, 5, ⟨0, 0, 0⟩, false⟩]))
        ⟨0, 0, [], []⟩ = .returned ⟨4, 0, [], []⟩ ∧
    run_inputs evtab_sorted 5 0 (List.replicate 5 (3, [⟨-1, 5, ⟨0, 0, 0⟩, false⟩]))
        ⟨0, 0, [], []⟩ = .exited ⟨5, 0, [], []⟩ := by
  constructor <;> rfl

/-- C11 (amended): with a threshold `ACPID_MAX_ERRS` of at least 1 and the
error counter at 0, consider consecutive calls of `process_input` that each
end in a transient read error: the read, repeated by `TEMP_FAILURE_RETRY`
while it fails with `EINTR`, fails with an error other than `ENODEV` (and so
other than `EINTR`).  Fewer than `ACPID_MAX_ERRS` such calls never trigger the
fatal shutdown (every call returns, the counter holds their number), and the
`ACPID_MAX_ERRS`-th such call triggers it.  The reads that failed with
`EINTR` are not counted; a read that fails with an error other than `ENODEV`
and `EINTR` is not repeated and is such an error. -/
theorem error_budget (tab : List evtab_entry) (ACPID_MAX_ERRS tpmutefix : Int)
    (rs : List (Int × List Reading)) (s : State) (hT : 1 ≤ ACPID_MAX_ERRS) (h0 : s.nerrs = 0)
    (hall : ∀ x ∈ rs, ∃ r, TEMP_FAILURE_RETRY x.2 = some r ∧ r.nbytes < 0 ∧ r.errno ≠ ENODEV) :
    ((rs.length : Int) < ACPID_MAX_ERRS →
      run_inputs tab ACPID_MAX_ERRS tpmutefix rs s = .returned { s with nerrs := rs.length }) ∧
    ((rs.length : Int) = ACPID_MAX_ERRS →
      run_inputs tab ACPID_MAX_ERRS tpmutefix rs s
        = .exited { s with nerrs := ACPID_MAX_ERRS }) ∧
    (∀ x ∈ rs, ∀ r, TEMP_FAILURE_RETRY x.2 = some r → ¬ (r.nbytes = -1 ∧ r.errno = EINTR)) ∧
    (∀ (r : Reading) (reads : List Reading), r.nbytes < 0 → r.errno ≠ ENODEV →
      r.errno ≠ EINTR → TEMP_FAILURE_RETRY (r :: reads) = some r) := by
  have hall' : ∀ x ∈ rs, counted x.2 = true := fun x hx => (counted_iff x.2).2 (hall x hx)
  refine ⟨?_, ?_, ?_, ?_⟩
  · intro hlt
    rw [run_inputs_transient_returns tab ACPID_MAX_ERRS tpmutefix rs s hall' (by omega), h0]
    simp
  · intro heq
    exact run_inputs_transient_exits tab ACPID_MAX_ERRS tpmutefix rs s hall' (by omega)
      (by omega)
  · intro x _ r hr
    exact TEMP_FAILURE_RETRY_not_eintr x.2 r hr
  · intro r reads _ _ hne
    exact TEMP_FAILURE_RETRY_first r reads (fun h => hne h.2)

theorem error_budget_witness :
    run_inputs evtab_sorted 2 0
        [(3, [⟨-1, EINTR, ⟨0, 0, 0⟩, false⟩, ⟨-1, 5, ⟨0, 0, 0⟩, false⟩])] ⟨0, 0, [], []⟩
        = .returned ⟨1, 0, [], []⟩ ∧
    run_inputs evtab_sorted 2 0
        [(3, [⟨-1, 5, ⟨0, 0, 0⟩, false⟩]),
          (4, [⟨-1, EINTR, ⟨0, 0, 0⟩, false⟩, ⟨-1, 11, ⟨0, 0, 0⟩, false⟩])] ⟨0, 0, [], []⟩
        = .exited ⟨2, 0, [], []⟩ :=
  ⟨(error_budget evtab_sorted 2 0
      [(3, [⟨-1, EINTR, ⟨0, 0, 0⟩, false⟩, ⟨-1, 5, ⟨0, 0, 0⟩, false⟩])] ⟨0, 0, [], []⟩
      (by decide) rfl (by decide)).1 (by decide),
    (error_budget evtab_sorted 2 0
      [(3, [⟨-1, 5, ⟨0, 0, 0⟩, false⟩]),
        (4, [⟨-1, EINTR, ⟨0, 0, 0⟩, false⟩, ⟨-1, 11, ⟨0, 0, 0⟩, false⟩])] ⟨0, 0, [], []⟩
      (by decide) rfl (by decide)).2.1 (by decide)⟩

/-- C12 (fails on the code): with `ACPID_MAX_ERRS = 5` and the error counter
at 4, a read that fails with `EINTR`, an error other than `ENODEV`, does not
end the process: `TEMP_FAILURE_RETRY` repeats the read, and when the repeated
read is a short one the call returns with the counter still at 4. -/
theorem interrupted_read_not_fatal :
    ((-1 : Int) < 0 ∧ EINTR ≠ ENODEV ∧ (4 : Int) + 1 ≥ 5) ∧
    process_input evtab_sorted 5 0 3
        [⟨-1, EINTR, ⟨0, 0, 0⟩, false⟩, ⟨8, 0, ⟨0, 0, 0⟩, false⟩]
        ⟨4, 0, [⟨3, some "/dev/input/event0", 0⟩], []⟩
      = .returned ⟨4, 0, [⟨3, some "/dev/input/event0", 0⟩], []⟩ := by
  refine ⟨by decide, ?_⟩
  rfl

/-- C12 (amended): a read that fails with `EINTR` is repeated and decides
nothing: the call behaves as on the reads that follow it.  For the result `r`
of the read after these retries, `process_input` ends in `exit` if and only if
`r` is 0 bytes, or `r` is a failure with an error other than `ENODEV` (and,
being the result of the retries, not -1 with `EINTR`) and the incremented
error counter reaches `ACPID_MAX_ERRS`.  When `r` is a failure with `ENODEV`
the call removes the connection for the descriptor and returns, and when `r`
is a short read it returns at once; in both cases the error counter and the
strings handed to the handler are as before. -/
theorem process_input_fatal_iff (tab : List evtab_entry) (ACPID_MAX_ERRS tpmutefix fd : Int)
    (reads : List Reading) (s : State) :
    (∀ r0 : Reading, r0.nbytes = -1 → r0.errno = EINTR →
      process_input tab ACPID_MAX_ERRS tpmutefix fd (r0 :: reads) s
        = process_input tab ACPID_MAX_ERRS tpmutefix fd reads s) ∧
    (∀ r, TEMP_FAILURE_RETRY reads = some r → ¬ (r.nbytes = -1 ∧ r.errno = EINTR)) ∧
    ((process_input tab ACPID_MAX_ERRS tpmutefix fd reads s).fatal = true ↔
      ∃ r, TEMP_FAILURE_RETRY reads = some r ∧
        (r.nbytes = 0 ∨
          (r.nbytes < 0 ∧ r.errno ≠ ENODEV ∧ s.nerrs + 1 ≥ ACPID_MAX_ERRS))) ∧
    (∀ r, TEMP_FAILURE_RETRY reads = some r → r.nbytes < 0 → r.errno = ENODEV →
      process_input tab ACPID_MAX_ERRS tpmutefix fd reads s
        = .returned { s with connections := delete_connection fd s.connections } ∧
      find_connection fd (delete_connection fd s.connections) = none) ∧
    (∀ r, TEMP_FAILURE_RETRY reads = some r → 0 < r.nbytes → r.nbytes ≠ sizeof_event →
      process_input tab ACPID_MAX_ERRS tpmutefix fd reads s = .returned s) := by
  refine ⟨?_, ?_, ?_, ?_, ?_⟩
  · intro r0 h1 h2
    unfold process_input
    rw [TEMP_FAILURE_RETRY_eintr r0 reads ⟨h1, h2⟩]
  · intro r hr
    exact TEMP_FAILURE_RETRY_not_eintr reads r hr
  · rw [process_input_fatal]
    unfold transient
    constructor
    · rintro ⟨r, hr, h | ⟨⟨h1, h2⟩, h3⟩⟩
      · exact ⟨r, hr, Or.inl h⟩
      · exact ⟨r, hr, Or.inr ⟨h1, h2, h3⟩⟩
    · rintro ⟨r, hr, h | ⟨h1, h2, h3⟩⟩
      · exact ⟨r, hr, Or.inl h⟩
      · exact ⟨r, hr, Or.inr ⟨⟨h1, h2⟩, h3⟩⟩
  · intro r hr h1 h2
    refine ⟨process_input_enodev _ _ _ _ _ _ _ hr h1 h2, ?_⟩
    unfold find_connection delete_connection
    rw [List.find?_eq_none]
    intro c hc
    have := (List.mem_filter.1 hc).2
    simpa using this
  · intro r hr h1 h2
    exact process_input_short _ _ _ _ _ _ _ hr h1 h2

theorem process_input_fatal_iff_witness :
    process_input evtab_sorted 5 0 3
        [⟨-1, EINTR, ⟨0, 0, 0⟩, false⟩, ⟨-1, 19, ⟨0, 0, 0⟩, false⟩]
        ⟨4, 0, [⟨3, some "/dev/input/event0", 0⟩], []⟩
      = process_input evtab_sorted 5 0 3 [⟨-1, 19, ⟨0, 0, 0⟩, false⟩]
        ⟨4, 0, [⟨3, some "/dev/input/event0", 0⟩], []⟩ ∧
    process_input evtab_sorted 5 0 3 [⟨-1, 19, ⟨0, 0, 0⟩, false⟩]
        ⟨4, 0, [⟨3, some "/dev/input/event0", 0⟩], []⟩
      = .returned ⟨4, 0, [], []⟩ ∧
    process_input evtab_sorted 5 0 3 [⟨8, 0, ⟨0, 0, 0⟩, false⟩]
        ⟨4, 0, [⟨3, some "/dev/input/event0", 0⟩], []⟩
      = .returned ⟨4, 0, [⟨3, some "/dev/input/event0", 0⟩], []⟩ :=
  ⟨(process_input_fatal_iff evtab_sorted 5 0 3 [⟨-1, 19, ⟨0, 0, 0⟩, false⟩]
      ⟨4, 0, [⟨3, some "/dev/input/event0", 0⟩], []⟩).1 ⟨-1, EINTR, ⟨0, 0, 0⟩, false⟩ rfl rfl,
    ((process_input_fatal_iff evtab_sorted 5 0 3 [⟨-1, 19, ⟨0, 0, 0⟩, false⟩]
      ⟨4, 0, [⟨3, some "/dev/input/event0", 0⟩], []⟩).2.2.2.1 ⟨-1, 19, ⟨0, 0, 0⟩, false⟩ rfl
      (by decide) rfl).1,
    (process_input_fatal_iff evtab_sorted 5 0 3 [⟨8, 0, ⟨0, 0, 0⟩, false⟩]
      ⟨4, 0, [⟨3, some "/dev/input/event0", 0⟩], []⟩).2.2.2.2 ⟨8, 0, ⟨0, 0, 0⟩, false⟩ rfl
      (by decide) (by decide)⟩

/-- C18: `mute_string` leaves `repeat_count` unchanged on every record whose
`(type, code)` is not `(EV_KEY, KEY_MUTE)` and on every mute-key record whose
value is neither 1 nor 2; and it returns NULL on every record that is not a
mute-key record with value 0 or 1. -/
theorem mute_string_frame (event : input_event) (repeat_count : Nat) :
    ((¬ (event.type = EV_KEY ∧ event.code = KEY_MUTE) ∨ (event.value ≠ 1 ∧ event.value ≠ 2)) →
      (mute_string event repeat_count).2 = repeat_count) ∧
    (¬ (event.type = EV_KEY ∧ event.code = KEY_MUTE ∧ (event.value = 0 ∨ event.value = 1)) →
      (mute_string event repeat_count).1 = none) := by
  unfold mute_string
  constructor
  · intro h
    split_ifs <;> first | rfl | (exfalso; tauto)
  · intro h
    split_ifs <;> first | rfl | (exfalso; tauto)

theorem mute_string_frame_witness :
    (mute_string (mute_event 3) 7).2 = 7 ∧ (mute_string (mute_event (-1)) 7).2 = 7 ∧
    (mute_string (mute_event 0) 7).2 = 7 ∧ (mute_string ⟨EV_SW, KEY_MUTE, 2⟩ 7).2 = 7 ∧
    (mute_string (mute_event 3) 7).1 = none ∧ (mute_string ⟨EV_SW, KEY_MUTE, 1⟩ 7).1 = none :=
  ⟨(mute_string_frame (mute_event 3) 7).1 (Or.inr (by decide)),
    (mute_string_frame (mute_event (-1)) 7).1 (Or.inr (by decide)),
    (mute_string_frame (mute_event 0) 7).1 (Or.inr (by decide)),
    (mute_string_frame ⟨EV_SW, KEY_MUTE, 2⟩ 7).1 (Or.inl (by decide)),
    (mute_string_frame (mute_event 3) 7).2 (by decide),
    (mute_string_frame ⟨EV_SW, KEY_MUTE, 1⟩ 7).2 (by decide)⟩

/-- C20 (fails on the code): a failed read with an error other than `ENODEV`
need not add 1 to the error counter: with the counter at 2, two reads in a
row that fail with `EINTR` are repeated by `TEMP_FAILURE_RETRY`, and after the
short read that follows them the counter is still 2.  With
`ACPID_MAX_ERRS = 5`, five calls that each see one such failed read before a
short read do not end the process, and the counter stays 0. -/
theorem interrupted_read_not_counted :
    ((-1 : Int) < 0 ∧ EINTR ≠ ENODEV) ∧
    (process_input evtab_sorted 5 0 3
        [⟨-1, EINTR, ⟨0, 0, 0⟩, false⟩, ⟨-1, EINTR, ⟨0, 0, 0⟩, false⟩,
          ⟨8, 0, ⟨0, 0, 0⟩, false⟩]
        ⟨2, 0, [], []⟩).state.nerrs = 2 ∧
    run_inputs evtab_sorted 5 0
        (List.replicate 5 (3, [⟨-1, EINTR, ⟨0, 0, 0⟩, false⟩, ⟨8, 0, ⟨0, 0, 0⟩, false⟩]))
        ⟨0, 0, [], []⟩ = .returned ⟨0, 0, [], []⟩ := by
  refine ⟨by decide, ?_, ?_⟩ <;> rfl

/-- C20 (amended): no call of `process_input` decreases or resets the error
counter `nerrs`.  A call adds exactly 1 when its read, repeated by
`TEMP_FAILURE_RETRY` while it fails with `EINTR`, ends in a failure with an
error other than `ENODEV`; every other call leaves the counter unchanged, and
the reads that failed with `EINTR` add nothing.  So over any sequence of
calls on any descriptors the counter never goes down.  Hence a sequence of
calls, each with a read that gets past the retries, that holds at least one
counted error and enough of them to bring the counter to `ACPID_MAX_ERRS`
ends in the fatal shutdown, whatever other reads lie between them. -/
theorem nerrs_cumulative (tab : List evtab_entry) (ACPID_MAX_ERRS tpmutefix : Int)
    (rs : List (Int × List Reading)) (s : State) :
    (∀ (fd : Int) (reads : List Reading),
      (process_input tab ACPID_MAX_ERRS tpmutefix fd reads s).state.nerrs
        = if counted reads = true then s.nerrs + 1 else s.nerrs) ∧
    (∀ reads : List Reading, counted reads = true ↔
      ∃ r, TEMP_FAILURE_RETRY reads = some r ∧ r.nbytes < 0 ∧ r.errno ≠ ENODEV) ∧
    (∀ (reads : List Reading) (r0 : Reading), r0.nbytes = -1 → r0.errno = EINTR →
      counted (r0 :: reads) = counted reads) ∧
    s.nerrs ≤ (run_inputs tab ACPID_MAX_ERRS tpmutefix rs s).state.nerrs ∧
    ((∀ x ∈ rs, (TEMP_FAILURE_RETRY x.2).isSome = true) →
      1 ≤ rs.countP (fun x => counted x.2) →
      s.nerrs + (rs.countP (fun x => counted x.2) : Nat) ≥ ACPID_MAX_ERRS →
      (run_inputs tab ACPID_MAX_ERRS tpmutefix rs s).fatal = true) :=
  ⟨fun fd reads => process_input_nerrs tab ACPID_MAX_ERRS tpmutefix fd reads s,
    fun reads => counted_iff reads,
    fun reads r0 h1 h2 => by
      unfold counted
      rw [TEMP_FAILURE_RETRY_eintr r0 reads ⟨h1, h2⟩],
    run_inputs_nerrs_mono tab ACPID_MAX_ERRS tpmutefix rs s,
    fun hsome => run_inputs_fatal tab ACPID_MAX_ERRS tpmutefix rs s (fun x hx h => by
      have hx := hsome x hx
      rw [h] at hx
      exact Bool.noConfusion hx)⟩

theorem nerrs_cumulative_witness :
    (run_inputs evtab_sorted 2 0
      [(3, [⟨-1, 5, ⟨0, 0, 0⟩, false⟩]),
        (4, [⟨sizeof_event, 0, ⟨EV_KEY, KEY_UP, 1⟩, false⟩]),
        (3, [⟨-1, EINTR, ⟨0, 0, 0⟩, false⟩, ⟨8, 0, ⟨0, 0, 0⟩, false⟩]),
        (4, [⟨-1, 5, ⟨0, 0, 0⟩, false⟩])]
      ⟨0, 0, [], []⟩).fatal = true :=
  (nerrs_cumulative evtab_sorted 2 0
    [(3, [⟨-1, 5, ⟨0, 0, 0⟩, false⟩]),
      (4, [⟨sizeof_event, 0, ⟨EV_KEY, KEY_UP, 1⟩, false⟩]),
      (3, [⟨-1, EINTR, ⟨0, 0, 0⟩, false⟩, ⟨8, 0, ⟨0, 0, 0⟩, false⟩]),
      (4, [⟨-1, 5, ⟨0, 0, 0⟩, false⟩])]
    ⟨0, 0, [], []⟩).2.2.2.2 (by decide) (by decide) (by decide)

/-- C13 (fails on the code): the mute release record `(EV_KEY, KEY_MUTE, 0)`
is absent from the catalog, yet with `tpmutefix` set and `repeat_count`
even `process_input` passes "button/mute MUTE (key released)" to the handler. -/
theorem absent_record_forwarded :
    (∀ e ∈ evtab, ¬ same_triple e (mute_event 0)) ∧
    process_input evtab_sorted 5 1 3 [⟨sizeof_event, 0, mute_event 0, false⟩] ⟨0, 0, [], []⟩
      = .returned ⟨0, 0, [], ["button/mute MUTE (key released)"]⟩ := by
  refine ⟨by decide, ?_⟩
  have hc : convert_event evtab_sorted 1 (mute_event 0) 0
      = (some "button/mute MUTE (key released)", 0) := by
    unfold convert_event
    rw [if_pos (by decide)]
    rfl
  have hread : TEMP_FAILURE_RETRY [⟨sizeof_event, 0, mute_event 0, false⟩]
      = some ⟨sizeof_event, 0, mute_event 0, false⟩ := rfl
  unfold process_input
  rw [hread]
  simp only [hc]
  rfl

/-- C13 (amended): for every full record read by `process_input` (the result
`r` of the read after the retries of `TEMP_FAILURE_RETRY`), the handler
is invoked exactly once if the classification yields a name and `locked()` is
false, and not at all otherwise.  A record whose triple is absent from the
catalog causes no handler call, whatever the lock and keyboard state, unless
`tpmutefix` is set and the record is a mute-key release read while
`repeat_count` is even; and a classified record is dropped without a handler
call whenever `locked()` is true. -/
theorem forward_once (ACPID_MAX_ERRS tpmutefix fd : Int) (reads : List Reading) (r : Reading)
    (s : State) (hread : TEMP_FAILURE_RETRY reads = some r) (hfull : r.nbytes = sizeof_event) :
    ∃ s', process_input evtab_sorted ACPID_MAX_ERRS tpmutefix fd reads s = .returned s' ∧
      ((∃ n, (convert_event evtab_sorted tpmutefix r.event s.repeat_count).1 = some n) →
        r.locked = false → ∃ str, s'.handled = s.handled ++ [str]) ∧
      ((convert_event evtab_sorted tpmutefix r.event s.repeat_count).1 = none ∨
        r.locked = true → s'.handled = s.handled) ∧
      (r.event.type < 2 ^ 16 → r.event.code < 2 ^ 16 → -2 ^ 31 ≤ r.event.value →
        r.event.value < 2 ^ 31 → (∀ e ∈ evtab, ¬ same_triple e r.event) →
        ¬ (tpmutefix ≠ 0 ∧ r.event = mute_event 0 ∧ s.repeat_count % 2 = 0) →
        s'.handled = s.handled) := by
  obtain ⟨s', hs', _, _, _, hh⟩ :=
    process_input_full evtab_sorted ACPID_MAX_ERRS tpmutefix fd reads r s hread hfull
  have hnone : (convert_event evtab_sorted tpmutefix r.event s.repeat_count).1 = none →
      s'.handled = s.handled := by
    intro h
    rw [hh, h]
  refine ⟨s', hs', ?_, ?_, ?_⟩
  · rintro ⟨n, hn⟩ hl
    rw [hn] at hh
    simp only [hl, Bool.false_eq_true, ↓reduceIte] at hh
    exact ⟨_, hh⟩
  · rintro (h | h)
    · exact hnone h
    · rw [hh]
      cases (convert_event evtab_sorted tpmutefix r.event s.repeat_count).1 with
      | none => rfl
      | some n => simp only [h, ↓reduceIte]
  · intro h1 h2 h3 h4 habs hmute
    exact hnone (convert_event_absent tpmutefix r.event s.repeat_count h1 h2 h3 h4 habs hmute)

theorem forward_once_witness :
    ∃ s', process_input evtab_sorted 5 1 3 [⟨sizeof_event, 0, ⟨EV_REL, 999, 0⟩, false⟩]
        ⟨0, 0, [⟨3, none, 1⟩], []⟩ = .returned s' ∧ s'.handled = [] := by
  obtain ⟨s', hs', _, _, h⟩ := forward_once 5 1 3 [⟨sizeof_event, 0, ⟨EV_REL, 999, 0⟩, false⟩]
    ⟨sizeof_event, 0, ⟨EV_REL, 999, 0⟩, false⟩ ⟨0, 0, [⟨3, none, 1⟩], []⟩ rfl rfl
  exact ⟨s', hs', h (by decide) (by decide) (by decide) (by decide) (by decide) (by decide)⟩

/-- C14: for every name `n` the classification yields on a full record (the
result `r` of the read after the retries of `TEMP_FAILURE_RETRY`) with
no lock active, the string passed to the handler is exactly `n` when the
connection found for the descriptor is not keyboard-tagged or none is found;
on a keyboard-tagged connection it is `n` followed by " K", of length at most
99, when `n` has at most 97 characters, and `n` unmodified otherwise; and `n`
has at most 97 characters exactly when `n`, the two characters of the suffix
and the terminator fit in the 100 bytes of `str2`. -/
theorem keyboard_suffix (tab : List evtab_entry) (ACPID_MAX_ERRS tpmutefix fd : Int)
    (reads : List Reading) (r : Reading) (s : State) (n : String)
    (hread : TEMP_FAILURE_RETRY reads = some r) (hfull : r.nbytes = sizeof_event)
    (hn : (convert_event tab tpmutefix r.event s.repeat_count).1 = some n)
    (hunlocked : r.locked = false) :
    ∃ s', process_input tab ACPID_MAX_ERRS tpmutefix fd reads s = .returned s' ∧
      s'.connections = (if r.event.type = EV_MSC ∧ r.event.code = MSC_SCAN
        then set_kybd fd s.connections else s.connections) ∧
      (is_keyboard fd s'.connections = false → s'.handled = s.handled ++ [n]) ∧
      (is_keyboard fd s'.connections = true → n.length ≤ 97 →
        s'.handled = s.handled ++ [n ++ " K"] ∧ (n ++ " K").length = n.length + 2 ∧
          (n ++ " K").length ≤ 99) ∧
      (is_keyboard fd s'.connections = true → ¬ n.length ≤ 97 →
        s'.handled = s.handled ++ [n]) ∧
      (n.length ≤ 97 ↔ n.length + 2 + 1 ≤ sizeof_str2) := by
  obtain ⟨s', hs', _, _, hconn, hh⟩ :=
    process_input_full tab ACPID_MAX_ERRS tpmutefix fd reads r s hread hfull
  rw [hn] at hh
  simp only [hunlocked, Bool.false_eq_true, ↓reduceIte] at hh
  have hlen : (n ++ " K").length = n.length + 2 := by
    rw [String.length_append]; rfl
  refine ⟨s', hs', hconn, ?_, ?_, ?_, ?_⟩
  · intro hk
    rw [hh, hk]
    simp
  · intro hk hle
    rw [hh, hk]
    simp only [true_and, hle, ↓reduceIte]
    exact ⟨hlen, by omega⟩
  · intro hk hgt
    rw [hh, hk]
    simp only [true_and, hgt, ↓reduceIte]
  · unfold sizeof_str2; omega

theorem keyboard_suffix_witness :
    ∃ s', process_input evtab_sorted 5 0 3 [⟨sizeof_event, 0, ⟨EV_KEY, KEY_UP, 1⟩, false⟩]
        ⟨0, 0, [⟨3, some "/dev/input/event0", 1⟩], []⟩ = .returned s' ∧
      s'.handled = [] ++ ["button/up UP 00000080 00000000" ++ " K"] ∧
      ("button/up UP 00000080 00000000" ++ " K").length ≤ 99 := by
  obtain ⟨s', hs', hconn, _, h, _⟩ := keyboard_suffix evtab_sorted 5 0 3
    [⟨sizeof_event, 0, ⟨EV_KEY, KEY_UP, 1⟩, false⟩]
    ⟨sizeof_event, 0, ⟨EV_KEY, KEY_UP, 1⟩, false⟩
    ⟨0, 0, [⟨3, some "/dev/input/event0", 1⟩], []⟩ "button/up UP 00000080 00000000" rfl rfl
    (by rw [convert_event_up]) rfl
  have hk : is_keyboard 3 s'.connections = true := by
    rw [hconn]; decide
  obtain ⟨h1, _, h3⟩ := h hk (by decide)
  exact ⟨s', hs', h1, h3⟩

/-- C15 (fails on the code): on the full record `(EV_KEY, KEY_UP, 1)` with no
lock active, the string passed to the handler is
"button/up UP 00000080 00000000" on a connection that is not keyboard-tagged
and "button/up UP 00000080 00000000 K" on a keyboard-tagged one, not
"button/up" and "button/up K". -/
theorem up_record_forwarded :
    process_input evtab_sorted 5 0 3 [⟨sizeof_event, 0, ⟨EV_KEY, KEY_UP, 1⟩, false⟩]
        ⟨0, 0, [⟨3, some "/dev/input/event0", 0⟩], []⟩
      = .returned ⟨0, 0, [⟨3, some "/dev/input/event0", 0⟩],
          ["button/up UP 00000080 00000000"]⟩ ∧
    process_input evtab_sorted 5 0 3 [⟨sizeof_event, 0, ⟨EV_KEY, KEY_UP, 1⟩, false⟩]
        ⟨0, 0, [⟨3, some "/dev/input/event0", 1⟩], []⟩
      = .returned ⟨0, 0, [⟨3, some "/dev/input/event0", 1⟩],
          ["button/up UP 00000080 00000000 K"]⟩ ∧
    "button/up UP 00000080 00000000" ≠ "button/up" ∧
    "button/up UP 00000080 00000000 K" ≠ "button/up K" := by
  have hread : TEMP_FAILURE_RETRY [⟨sizeof_event, 0, ⟨EV_KEY, KEY_UP, 1⟩, false⟩]
      = some ⟨sizeof_event, 0, ⟨EV_KEY, KEY_UP, 1⟩, false⟩ := rfl
  refine ⟨?_, ?_, by decide, by decide⟩
  · unfold process_input
    rw [hread]
    simp only [convert_event_up]
    rfl
  · unfold process_input
    rw [hread]
    simp only [convert_event_up]
    rfl

/-- C15 (amended): reading the full record `(EV_KEY, KEY_UP, 1)` (the result
`r` of the read after the retries of `TEMP_FAILURE_RETRY`) with no lock
active, the string passed to the handler is exactly
"button/up UP 00000080 00000000" on a connection that is not keyboard-tagged,
and exactly "button/up UP 00000080 00000000 K" on a keyboard-tagged one. -/
theorem up_record (ACPID_MAX_ERRS tpmutefix fd : Int) (reads : List Reading) (r : Reading)
    (s : State) (hread : TEMP_FAILURE_RETRY reads = some r)
    (hfull : r.nbytes = sizeof_event) (hev : r.event = ⟨EV_KEY, KEY_UP, 1⟩)
    (hunlocked : r.locked = false) :
    ∃ s', process_input evtab_sorted ACPID_MAX_ERRS tpmutefix fd reads s = .returned s' ∧
      s'.connections = s.connections ∧
      (is_keyboard fd s.connections = false →
        s'.handled = s.handled ++ ["button/up UP 00000080 00000000"]) ∧
      (is_keyboard fd s.connections = true →
        s'.handled = s.handled ++ ["button/up UP 00000080 00000000 K"]) := by
  obtain ⟨s', hs', _, _, hconn, hh⟩ :=
    process_input_full evtab_sorted ACPID_MAX_ERRS tpmutefix fd reads r s hread hfull
  rw [hev, convert_event_up] at hh
  rw [hev, if_neg (by decide)] at hconn
  simp only [hunlocked, Bool.false_eq_true, ↓reduceIte, hconn] at hh
  refine ⟨s', hs', hconn, ?_, ?_⟩
  · intro hk
    rw [hh, hk]
    simp
  · intro hk
    rw [hh, hk]
    have : "button/up UP 00000080 00000000".length ≤ 97 := by decide
    simp only [true_and, this, ↓reduceIte]
    rfl

theorem up_record_witness :
    ∃ s', process_input evtab_sorted 5 1 3 [⟨sizeof_event, 0, ⟨EV_KEY, KEY_UP, 1⟩, false⟩]
        ⟨0, 0, [⟨3, some "/dev/input/event0", 1⟩], []⟩ = .returned s' ∧
      s'.handled = [] ++ ["button/up UP 00000080 00000000 K"] := by
  obtain ⟨s', hs', _, _, h⟩ := up_record 5 1 3 [⟨sizeof_event, 0, ⟨EV_KEY, KEY_UP, 1⟩, false⟩]
    ⟨sizeof_event, 0, ⟨EV_KEY, KEY_UP, 1⟩, false⟩
    ⟨0, 0, [⟨3, some "/dev/input/event0", 1⟩], []⟩ rfl rfl rfl rfl
  exact ⟨s', hs', h (by decide)⟩

/-- C16 (fails on the code): when `malloc` returns NULL for the copy of the
pathname, `open_inputfile` registers the connection with a NULL pathname, so
`find_connection_name` does not find it and the second run of `open_input`
over the same path opens the device again and adds a second connection. -/
theorem open_input_duplicate :
    open_input 8 evtab
        ⟨fun p => if p = "/dev/input/event0" then 3 else -1,
          fun _ => ⟨fun t => if t = 0 then some [2] else if t = 1 then some [0, 2 ^ 49]
            else none⟩,
          fun _ => true, fun _ => false⟩
        ["/dev/input/event0"] []
      = some ⟨evtab_sorted, [⟨3, none, 0⟩], false⟩ ∧
    open_input 8 evtab_sorted
        ⟨fun p => if p = "/dev/input/event0" then 3 else -1,
          fun _ => ⟨fun t => if t = 0 then some [2] else if t = 1 then some [0, 2 ^ 49]
            else none⟩,
          fun _ => true, fun _ => false⟩
        ["/dev/input/event0"] [⟨3, none, 0⟩]
      = some ⟨evtab_sorted, [⟨3, none, 0⟩, ⟨3, none, 0⟩], false⟩ := by
  have hev : has_event 8 evtab_sorted
      ⟨fun t => if t = 0 then some [2] else if t = 1 then some [0, 2 ^ 49] else none⟩
      = some 1 :=
    has_event_of_hit 8 evtab_sorted _ EV_KEY KEY_MUTE (by decide) (by decide) (by decide)
      (by decide) (by decide)
      ((need_event_sorted_iff EV_KEY KEY_MUTE (by decide) (by decide)).2
        ⟨⟨EV_KEY, KEY_MUTE, 1, "button/mute MUTE 00000080 00000000"⟩, by decide, rfl, rfl⟩)
  have hopen : ∀ l : List connection, open_inputfile 8 evtab_sorted
      ⟨fun p => if p = "/dev/input/event0" then 3 else -1,
        fun _ => ⟨fun t => if t = 0 then some [2] else if t = 1 then some [0, 2 ^ 49]
          else none⟩,
        fun _ => true, fun _ => false⟩ "/dev/input/event0" l = some (0, l ++ [⟨3, none, 0⟩]) :=
    fun l => open_inputfile_admissible 8 evtab_sorted _ "/dev/input/event0" l
      ⟨by decide, ⟨1, hev, by decide⟩, rfl⟩
  have hsort : qsort event_compare_3 evtab = evtab_sorted := rfl
  constructor
  · unfold open_input
    simp only [hsort, open_input_files, find_connection_name, List.find?_nil, hopen]
    rfl
  · unfold open_input
    have hfind : find_connection_name "/dev/input/event0" [⟨3, none, 0⟩] = none := rfl
    simp only [qsort_evtab_sorted, open_input_files, hfind, hopen]
    rfl

/-- C16 (amended): with the connection list as explicit state and the files,
devices, allocation results and registry refusals as a fixed input, and with
`malloc` returning the copy of the pathname for every matched path that
passes `open_inputfile`, `open_input` run twice over the same matched paths:
both runs return, the second run leaves the connection list and the sorted
table as the first run left them, and every matched path is then either found
by `find_connection_name` or rejected again by `open_inputfile`. -/
theorem open_input_idempotent (sizeof_long : Nat) (env : Files) (gl_pathv : List String)
    (list : List connection)
    (hmalloc : ∀ p ∈ gl_pathv, admissible sizeof_long evtab_sorted env p →
      env.malloc_null p = false) :
    ∃ a1 a2, open_input sizeof_long evtab env gl_pathv list = some a1 ∧
      open_input sizeof_long a1.evtab env gl_pathv a1.connections = some a2 ∧
      a2.connections = a1.connections ∧ a2.evtab = a1.evtab ∧
      (∀ p ∈ gl_pathv, (find_connection_name p a1.connections).isSome = true ∨
        open_inputfile sizeof_long a1.evtab env p a1.connections
          = some (-1, a1.connections)) := by
  obtain ⟨s1, l1, hrun1, _, htried0, _⟩ :=
    open_input_files_spec sizeof_long evtab_sorted env gl_pathv 0 list
  have htried : ∀ p ∈ gl_pathv, (find_connection_name p l1).isSome = true ∨
      ¬ admissible sizeof_long evtab_sorted env p := by
    intro p hp
    rcases htried0 p hp with hfound | hmem | hna
    · exact Or.inl hfound
    · by_cases hadm : admissible sizeof_long evtab_sorted env p
      · exact Or.inl (find_connection_name_of_mem env p l1 (hmalloc p hp hadm) hmem)
      · exact Or.inr hadm
    · exact Or.inr hna
  obtain ⟨s2, hrun2⟩ :=
    open_input_files_unchanged sizeof_long evtab_sorted env l1 gl_pathv 0 htried
  have h1 : open_input sizeof_long evtab env gl_pathv list
      = some ⟨evtab_sorted, l1, decide (s1 = 0)⟩ := by
    unfold open_input
    have : qsort event_compare_3 evtab = evtab_sorted := rfl
    simp only [this, hrun1]
  have h2 : open_input sizeof_long evtab_sorted env gl_pathv l1
      = some ⟨evtab_sorted, l1, decide (s2 = 0)⟩ := by
    unfold open_input
    simp only [qsort_evtab_sorted, hrun2]
  refine ⟨_, _, h1, h2, rfl, rfl, ?_⟩
  intro p hp
  rcases htried p hp with hfound | hna
  · exact Or.inl hfound
  · exact Or.inr (open_inputfile_not_admissible _ _ _ _ _ hna)

theorem open_input_idempotent_witness :
    ∃ a1 a2,
      open_input 8 evtab
          ⟨fun p => if p = "/dev/input/event0" then 3 else -1,
            fun _ => ⟨fun t => if t = 0 then some [2] else if t = 1 then some [0, 2 ^ 49]
              else none⟩,
            fun _ => false, fun _ => false⟩
          ["/dev/input/event0", "/dev/input/event1"] [] = some a1 ∧
      open_input 8 a1.evtab
          ⟨fun p => if p = "/dev/input/event0" then 3 else -1,
            fun _ => ⟨fun t => if t = 0 then some [2] else if t = 1 then some [0, 2 ^ 49]
              else none⟩,
            fun _ => false, fun _ => false⟩
          ["/dev/input/event0", "/dev/input/event1"] a1.connections = some a2 ∧
      a2.connections = a1.connections ∧ a2.evtab = a1.evtab ∧
      (∀ p ∈ ["/dev/input/event0", "/dev/input/event1"],
        (find_connection_name p a1.connections).isSome = true ∨
        open_inputfile 8 a1.evtab
          ⟨fun p => if p = "/dev/input/event0" then 3 else -1,
            fun _ => ⟨fun t => if t = 0 then some [2] else if t = 1 then some [0, 2 ^ 49]
              else none⟩,
            fun _ => false, fun _ => false⟩ p a1.connections = some (-1, a1.connections)) :=
  open_input_idempotent 8
    ⟨fun p => if p = "/dev/input/event0" then 3 else -1,
      fun _ => ⟨fun t => if t = 0 then some [2] else if t = 1 then some [0, 2 ^ 49] else none⟩,
      fun _ => false, fun _ => false⟩
    ["/dev/input/event0", "/dev/input/event1"] [] (fun _ _ _ => rfl)

/-- C17: `open_input` always returns to its caller, and it reports
"cannot open input layer" if and only if no matched path was already
registered and none passes `open_inputfile`, which returns 0 exactly when the
open succeeds, `has_event` is non-zero and `add_connection` succeeds.  Every
matched path is tried whatever happened to the paths before it: after the
run each one is found by name, has its connection (with the copy of the path,
or a NULL pathname when `malloc` failed) in the list, or fails
`open_inputfile`. -/
theorem open_input_report (sizeof_long : Nat) (tab : List evtab_entry) (env : Files)
    (gl_pathv : List String) (list : List connection) :
    ∃ a, open_input sizeof_long tab env gl_pathv list = some a ∧
      a.evtab = qsort event_compare_3 tab ∧
      (a.reported = true ↔ ∀ p ∈ gl_pathv, find_connection_name p list = none ∧
        ¬ admissible sizeof_long a.evtab env p) ∧
      (∀ p ∈ gl_pathv, (find_connection_name p a.connections).isSome = true ∨
        (⟨env.open_file p, if env.malloc_null p then none else some p, 0⟩ : connection)
          ∈ a.connections ∨
        ¬ admissible sizeof_long a.evtab env p) ∧
      (∀ p ∈ gl_pathv, env.malloc_null p = false →
        (find_connection_name p a.connections).isSome = true ∨
        ¬ admissible sizeof_long a.evtab env p) ∧
      (∀ (p : String) (l : List connection),
        (∃ l', open_inputfile sizeof_long a.evtab env p l = some (0, l')) ↔
          (env.open_file p ≥ 0 ∧
            (∃ r, has_event sizeof_long a.evtab (env.device (env.open_file p)) = some r ∧
              r ≠ 0) ∧
            (∃ l', add_connection env.refuses
              ⟨env.open_file p, if env.malloc_null p then none else some p, 0⟩ l = some l'))) ∧
      (∀ (p : String) (l : List connection),
        open_inputfile sizeof_long a.evtab env p l = some (-1, l) ∨
        open_inputfile sizeof_long a.evtab env p l
          = some (0, l ++ [⟨env.open_file p,
              if env.malloc_null p then none else some p, 0⟩])) := by
  obtain ⟨s1, l1, hrun, _, htried, hs⟩ :=
    open_input_files_spec sizeof_long (qsort event_compare_3 tab) env gl_pathv 0 list
  have h1 : open_input sizeof_long tab env gl_pathv list
      = some ⟨qsort event_compare_3 tab, l1, decide (s1 = 0)⟩ := by
    unfold open_input
    simp only [hrun]
  refine ⟨_, h1, rfl, ?_, htried, ?_, ?_, ?_⟩
  · simp only [decide_eq_true_eq]
    rw [hs]
    simp
  · intro p hp hm
    rcases htried p hp with hfound | hmem | hna
    · exact Or.inl hfound
    · exact Or.inl (find_connection_name_of_mem env p l1 hm hmem)
    · exact Or.inr hna
  · intro p l
    rw [open_inputfile_zero_iff]
    unfold admissible add_connection new_connection
    constructor
    · rintro ⟨h1, h2, h3⟩
      exact ⟨h1, h2, by simp [h3]⟩
    · rintro ⟨h1, h2, l', h3⟩
      refine ⟨h1, h2, ?_⟩
      cases hr : env.refuses
          ⟨env.open_file p, if env.malloc_null p then none else some p, 0⟩ with
      | false => rfl
      | true => rw [hr] at h3; simp at h3
  · intro p l
    by_cases hadm : admissible sizeof_long (qsort event_compare_3 tab) env p
    · exact Or.inr (open_inputfile_admissible _ _ _ _ _ hadm)
    · exact Or.inl (open_inputfile_not_admissible _ _ _ _ _ hadm)

theorem open_input_report_witness :
    ∃ a, open_input 8 evtab
        ⟨fun _ => -1, fun _ => ⟨fun _ => none⟩, fun _ => false, fun _ => false⟩
        ["/dev/input/event0", "/dev/input/event1"] [⟨5, none, 0⟩] = some a ∧
      a.reported = true := by
  obtain ⟨a, ha, _, hrep, _⟩ := open_input_report 8 evtab
    ⟨fun _ => -1, fun _ => ⟨fun _ => none⟩, fun _ => false, fun _ => false⟩
    ["/dev/input/event0", "/dev/input/event1"] [⟨5, none, 0⟩]
  refine ⟨a, ha, hrep.2 ?_⟩
  intro p hp
  refine ⟨?_, fun h => absurd h.1 (show ¬ ((-1 : Int) ≥ 0) by decide)⟩
  simp only [find_connection_name, List.find?_cons, List.find?_nil]
  rfl

/-- C19: `open_inputfile` creates a connection with the keyboard flag 0.  A
full record with `(type, code) = (EV_MSC, MSC_SCAN)` read on a registered
descriptor (the result of the read after the retries of
`TEMP_FAILURE_RETRY`) sets the flag of its connection and passes nothing to
the handler.  Over every sequence of calls of `process_input`, a flag that is
set stays set as long as the connection is registered, and a flag that is not
set stays so as long as no full scan-code record is read on the descriptor. -/
theorem keyboard_flag (sizeof_long : Nat) (tab : List evtab_entry) (env : Files)
    (ACPID_MAX_ERRS tpmutefix fd0 : Int) :
    (∀ (filename : String) (list list' : List connection),
      open_inputfile sizeof_long tab env filename list = some (0, list') →
      list' = list ++ [⟨env.open_file filename,
        if env.malloc_null filename then none else some filename, 0⟩]) ∧
    (∀ (reads : List Reading) (r : Reading) (s : State), TEMP_FAILURE_RETRY reads = some r →
      full_scan r → find_connection fd0 s.connections ≠ none →
      ∃ s', process_input evtab_sorted ACPID_MAX_ERRS tpmutefix fd0 reads s = .returned s' ∧
        is_keyboard fd0 s'.connections = true ∧ s'.handled = s.handled) ∧
    (∀ (rs : List (Int × List Reading)) (s : State), is_keyboard fd0 s.connections = true →
      is_keyboard fd0 (run_inputs tab ACPID_MAX_ERRS tpmutefix rs s).state.connections = true ∨
      find_connection fd0 (run_inputs tab ACPID_MAX_ERRS tpmutefix rs s).state.connections
        = none) ∧
    (∀ (rs : List (Int × List Reading)) (s : State), is_keyboard fd0 s.connections = false →
      (∀ x ∈ rs, ∀ r, TEMP_FAILURE_RETRY x.2 = some r → ¬ (x.1 = fd0 ∧ full_scan r)) →
      is_keyboard fd0 (run_inputs tab ACPID_MAX_ERRS tpmutefix rs s).state.connections
        = false) := by
  refine ⟨?_, ?_, ?_, ?_⟩
  · intro filename list list' h
    by_cases hadm : admissible sizeof_long tab env filename
    · rw [open_inputfile_admissible _ _ _ _ _ hadm] at h
      simp only [Option.some.injEq, Prod.mk.injEq, true_and] at h
      exact h.symm
    · rw [open_inputfile_not_admissible _ _ _ _ _ hadm] at h
      simp only [Option.some.injEq, Prod.mk.injEq] at h
      exact absurd h.1 (by decide)
  · intro reads r s hread hscan hfound
    obtain ⟨s', hs', _, _, hconn, hh⟩ :=
      process_input_full evtab_sorted ACPID_MAX_ERRS tpmutefix fd0 reads r s hread hscan.1
    rw [convert_event_scan tpmutefix r.event s.repeat_count hscan.2.1] at hh
    rw [if_pos hscan.2] at hconn
    refine ⟨s', hs', ?_, hh⟩
    rw [hconn]
    unfold is_keyboard
    rw [find_connection_set_kybd_self]
    cases hf : find_connection fd0 s.connections with
    | none => exact absurd hf hfound
    | some c => simp
  · intro rs s h
    exact run_inputs_keyboard_kept tab ACPID_MAX_ERRS tpmutefix fd0 rs s (Or.inl h)
  · intro rs s h hall
    exact run_inputs_keyboard_false tab ACPID_MAX_ERRS tpmutefix fd0 rs s h hall

theorem keyboard_flag_witness :
    (∃ s', process_input evtab_sorted 5 0 3
        [⟨-1, EINTR, ⟨0, 0, 0⟩, false⟩, ⟨sizeof_event, 0, ⟨EV_MSC, MSC_SCAN, 30⟩, false⟩]
        ⟨0, 0, [⟨3, some "/dev/input/event0", 0⟩], []⟩ = .returned s' ∧
      is_keyboard 3 s'.connections = true ∧ s'.handled = []) ∧
    is_keyboard 3 (run_inputs evtab_sorted 5 0
      [(3, [⟨8, 0, ⟨EV_MSC, MSC_SCAN, 30⟩, false⟩]),
        (3, [⟨-1, 5, ⟨EV_MSC, MSC_SCAN, 30⟩, false⟩]),
        (4, [⟨sizeof_event, 0, ⟨EV_MSC, MSC_SCAN, 30⟩, false⟩])]
      ⟨0, 0, [⟨3, some "/dev/input/event0", 0⟩], []⟩).state.connections = false :=
  ⟨(keyboard_flag 8 evtab_sorted
      ⟨fun _ => -1, fun _ => ⟨fun _ => none⟩, fun _ => false, fun _ => false⟩
      5 0 3).2.1
      [⟨-1, EINTR, ⟨0, 0, 0⟩, false⟩, ⟨sizeof_event, 0, ⟨EV_MSC, MSC_SCAN, 30⟩, false⟩]
      ⟨sizeof_event, 0, ⟨EV_MSC, MSC_SCAN, 30⟩, false⟩
      ⟨0, 0, [⟨3, some "/dev/input/event0", 0⟩], []⟩ rfl (by decide) (by decide),
    (keyboard_flag 8 evtab_sorted
      ⟨fun _ => -1, fun _ => ⟨fun _ => none⟩, fun _ => false, fun _ => false⟩
      5 0 3).2.2.2
      [(3, [⟨8, 0, ⟨EV_MSC, MSC_SCAN, 30⟩, false⟩]),
        (3, [⟨-1, 5, ⟨EV_MSC, MSC_SCAN, 30⟩, false⟩]),
        (4, [⟨sizeof_event, 0, ⟨EV_MSC, MSC_SCAN, 30⟩, false⟩])]
      ⟨0, 0, [⟨3, some "/dev/input/event0", 0⟩], []⟩ (by decide) (by
        intro x hx r hr
        simp only [List.mem_cons, List.mem_singleton, List.not_mem_nil, or_false] at hx
        rcases hx with rfl | rfl | rfl
        · obtain rfl := Option.some.inj hr
          decide
        · obtain rfl := Option.some.inj hr
          decide
        · obtain rfl := Option.some.inj hr
          decide)⟩

/-- C21: every bitmap access of `has_event` is in bounds.  With the array
`bit[EV_MAX][NBITS(KEY_MAX)]` and any positive size of `long` (4 and 8 bytes
included), for every type below `EV_MAX` and code below `KEY_MAX`: the row
index `type` is below the number of rows `EV_MAX`, the word indices
`LONG(type)` and `LONG(code)` are below `NBITS(KEY_MAX)`, the shift amounts
`OFF(type)` and `OFF(code)` are below `BITS_PER_LONG`, and `test_bit` finds
its word in every row of `NBITS(KEY_MAX)` words; so `has_event` returns 0 or 1
for every table and device, never the out-of-bounds result. -/
theorem has_event_in_bounds (sizeof_long : Nat) (hlong : 0 < sizeof_long) :
    (∀ type code : Nat, type < EV_MAX → code < KEY_MAX →
      type < (List.replicate EV_MAX (List.replicate (NBITS sizeof_long KEY_MAX) 0)).length ∧
      LONG sizeof_long type < NBITS sizeof_long KEY_MAX ∧
      LONG sizeof_long code < NBITS sizeof_long KEY_MAX ∧
      OFF sizeof_long type < BITS_PER_LONG sizeof_long ∧
      OFF sizeof_long code < BITS_PER_LONG sizeof_long ∧
      (∀ row : List Nat, row.length = NBITS sizeof_long KEY_MAX →
        (∃ b, test_bit sizeof_long type row = some b) ∧
        (∃ b, test_bit sizeof_long code row = some b))) ∧
    (∀ (tab : List evtab_entry) (dev : Device),
      ∃ r, has_event sizeof_long tab dev = some r ∧ (r = 0 ∨ r = 1)) := by
  constructor
  · intro type code ht hc
    have ht' : type < KEY_MAX := Nat.lt_of_lt_of_le ht EV_MAX_le_KEY_MAX
    refine ⟨by rw [List.length_replicate]; exact ht, LONG_lt_NBITS sizeof_long type ht',
      LONG_lt_NBITS sizeof_long code hc, OFF_lt_BITS_PER_LONG sizeof_long type hlong,
      OFF_lt_BITS_PER_LONG sizeof_long code hlong, ?_⟩
    intro row hrow
    obtain ⟨b1, hb1, _⟩ := test_bit_isSome sizeof_long type row
      (by rw [hrow]; exact LONG_lt_NBITS sizeof_long type ht')
    obtain ⟨b2, hb2, _⟩ := test_bit_isSome sizeof_long code row
      (by rw [hrow]; exact LONG_lt_NBITS sizeof_long code hc)
    exact ⟨⟨b1, hb1⟩, ⟨b2, hb2⟩⟩
  · intro tab dev
    exact has_event_total sizeof_long tab dev

theorem has_event_in_bounds_witness :
    (LONG 8 30 < NBITS 8 KEY_MAX ∧ LONG 8 766 < NBITS 8 KEY_MAX ∧
      OFF 8 30 < BITS_PER_LONG 8 ∧ OFF 8 766 < BITS_PER_LONG 8) ∧
    (LONG 4 30 < NBITS 4 KEY_MAX ∧ LONG 4 766 < NBITS 4 KEY_MAX ∧
      OFF 4 30 < BITS_PER_LONG 4 ∧ OFF 4 766 < BITS_PER_LONG 4) ∧
    (∃ r, has_event 8 evtab_sorted
        ⟨fun t => if t = 0 then some [2] else if t = 1 then some [0, 2 ^ 49] else none⟩
      = some r ∧ (r = 0 ∨ r = 1)) ∧
    (∃ r, has_event 4 evtab_sorted ⟨fun _ => some [4294967295]⟩ = some r ∧ (r = 0 ∨ r = 1)) :=
  ⟨(fun h => ⟨h.2.1, h.2.2.1, h.2.2.2.1, h.2.2.2.2.1⟩)
      ((has_event_in_bounds 8 (by decide)).1 30 766 (by decide) (by decide)),
    (fun h => ⟨h.2.1, h.2.2.1, h.2.2.2.1, h.2.2.2.2.1⟩)
      ((has_event_in_bounds 4 (by decide)).1 30 766 (by decide) (by decide)),
    (has_event_in_bounds 8 (by decide)).2 evtab_sorted _,
    (has_event_in_bounds 4 (by decide)).2 evtab_sorted _⟩

end InputLayer
